import Mathlib

/-
Shallow embedding of the mzML → ISA-Tab converter (repository Tomnl/bfg-test).

The repository holds three historical snapshots of the same pipeline:
  * src/isa_mzML.py          — original monolithic script (legacy extractor `mzMLmeta`
                               and legacy assay patcher `isa_assay_file`);
  * src/mzml_2_isa/mzml.py   — revised extractor (`mzMLmeta` with entry_list
                               aggregation, derived fields and ISA renaming);
  * src/mzml2isa/isa.py      — template-driven ISA-Tab generator (`ISA_Tab`).

Each Lean definition below mirrors one Python function or method of those files.
Python dictionaries keyed by strings are embedded as association lists with
Python-dict assignment semantics (`odAssign`: update in place if the key exists,
else append, preserving insertion order).  Python exceptions (KeyError,
IndexError, ValueError, NameError) are embedded as `Except String` errors
carrying the exception's name; an uncaught Python exception corresponds to the
whole function returning `.error`.  Numeric CV values (Python floats parsed by
`float(...)`) are embedded as exact rationals.  XML elements are embedded as
records of the attributes the code reads.
-/

set_option maxHeartbeats 1000000
set_option maxRecDepth 4000

/-- Python dict assignment `m[k] = v` on an insertion-ordered dictionary:
if `k` is present its value is replaced in place (position preserved),
otherwise the pair is appended. -/
def odAssign {α β : Type} [DecidableEq α] (m : List (α × β)) (k : α) (v : β) : List (α × β) :=
  if m.any (fun p => decide (p.1 = k)) then
    m.map (fun p => if p.1 = k then (k, v) else p)
  else m ++ [(k, v)]

/-- Python dict lookup `m[k]` as an Option (first binding of `k`). -/
def odFind {α β : Type} [DecidableEq α] (m : List (α × β)) (k : α) : Option β :=
  (m.find? (fun p => decide (p.1 = k))).map Prod.snd

/-- Python list item assignment `row[i] = v`, with Python's negative-index
wrap-around and IndexError on out-of-range indexes. -/
def pySetCell (row : List String) (i : Int) (v : String) : Except String (List String) :=
  let j : Int := if i < 0 then i + row.length else i
  if 0 ≤ j ∧ j < row.length then .ok (row.set j.toNat v) else .error "IndexError"

/-- Python list item read `row[i]` for a non-negative index, with IndexError. -/
def pyGetCell (row : List String) (i : Nat) : Except String String :=
  match row.get? i with
  | some v => .ok v
  | none => .error "IndexError"

/-- Python `l.index(x)`: first index of `x`, ValueError when absent. -/
def pyIndex (l : List String) (x : String) : Except String Nat :=
  match l.findIdx? (fun y => decide (y = x)) with
  | some i => .ok i
  | none => .error "ValueError"

/-- Helper for the Python idiom `[item for i, item in enumerate(row) if i not in
delete_cols]`: drop the elements whose position (counted from `i0`) is listed. -/
def removeIdxsAux (del : List Nat) : Nat → List String → List String
  | _, [] => []
  | i, x :: xs =>
    if del.contains i then removeIdxsAux del (i + 1) xs
    else x :: removeIdxsAux del (i + 1) xs

/-- Drop from `l` the elements whose index is in `del`. -/
def removeIdxs (l : List String) (del : List Nat) : List String :=
  removeIdxsAux del 0 l

/-- Python `set(l)` modeled as the distinct elements of `l`.  CPython's set
iteration order is unspecified; this model fixes first-occurrence order (every
claim proved below is independent of the particular order). -/
def pySet (l : List String) : List String :=
  l.foldl (fun acc x => if acc.contains x then acc else acc ++ [x]) []

/-- Split a character list on a separator character (Python `str.split(sep)`
semantics: every occurrence separates, empty pieces are kept). -/
def splitOnChar (c : Char) : List Char → List (List Char)
  | [] => [[]]
  | x :: xs =>
    let r := splitOnChar c xs
    if x = c then [] :: r
    else (x :: r.headD []) :: r.tail

/-- Python `s.split('\t')`, over the code points of `s`. -/
def pySplitTab (s : String) : List String :=
  (splitOnChar '\t' s.data).map (fun cs => String.mk cs)

/-- Python `s[:n]` (prefix of `n` code points). -/
def pyTake (s : String) (n : Nat) : String :=
  String.mk (s.data.take n)

/-- Python `s.upper()` (ASCII case mapping suffices here). -/
def pyUpper (s : String) : String :=
  String.mk (s.data.map Char.toUpper)

/-- Python `s.strip()`: remove leading and trailing whitespace. -/
def pyStrip (s : String) : String :=
  String.mk (((s.data.dropWhile Char.isWhitespace).reverse.dropWhile Char.isWhitespace).reverse)

/-- A Python metadata leaf dictionary: optional `accession`, `name`, `value`
string entries (absent key = `none`). -/
structure CVDict where
  accession : Option String
  name : Option String
  value : Option String
deriving Repr, DecidableEq

/-- A value of the metadata dictionary: either a plain leaf dict or an
`entry_list` aggregate (ordered mapping sequence-number → leaf dict). -/
inductive MetaValue where
  | dict (d : CVDict)
  | entry_list (es : List (Nat × CVDict))
deriving Repr, DecidableEq

/-- One per-file metadata record: the insertion-ordered dictionary built by the
extractor (`self.meta` / `self.meta_isa`). -/
abbrev Record := List (String × MetaValue)

/-- An mzML XML element as read by the extractors: its (raw) tag, its
`accession`, `name` and optional `value` attributes, and the `softwareRef`
attribute of its parent element (read only when a rule has `soft = True`). -/
structure XElem where
  tag : String
  accession : String
  name : String
  value : Option String
  softwareRef : Option String
deriving Repr, DecidableEq

/-- One row of the term-rule table (`terms[location][accession]`): the Python
keys are `attribute`, `name`, `plus1`, `value`, `soft`. -/
structure TermInfo where
  attrib : Bool
  name : String
  plus1 : Bool
  value : Bool
  soft : Bool
deriving Repr, DecidableEq

/-- A `softwareList/software` element: `id` and `version` attributes and the
`(accession, name)` pairs of its cvParam children. -/
structure Software where
  id : String
  version : String
  cvs : List (String × String)
deriving Repr, DecidableEq

/-- Build the leaf dict `{'accession': …, 'name': …}` for a matched element,
adding `value` when the rule has `value = True`; reading a missing `value`
attribute is Python's KeyError. -/
def mkEntry (e : XElem) (hasValue : Bool) : Except String CVDict :=
  if hasValue then
    match e.value with
    | some v => .ok ⟨some e.accession, some e.name, some v⟩
    | none => .error "KeyError"
  else .ok ⟨some e.accession, some e.name, none⟩

namespace mzml_2_isa

/-- mzMLmeta.software (src/mzml_2_isa/mzml.py lines 243-262): record the
version (when non-empty, Python truthiness) under `<name> software version`
and each cvParam child under `<name> software` (last one wins). -/
def software (software_list : List Software) (soft_ref : String) (nm : String)
    (meta : Record) : Record :=
  software_list.foldl
    (fun m e =>
      if e.id = soft_ref then
        let m := if e.version ≠ "" then
          odAssign m (nm ++ " software version") (.dict ⟨none, none, some e.version⟩)
        else m
        e.cvs.foldl (fun m ie => odAssign m (nm ++ " software") (.dict ⟨some ie.1, some ie.2, none⟩)) m
      else m)
    meta

/-- One iteration of the inner rule loop of mzMLmeta.cvParam_loop
(src/mzml_2_isa/mzml.py lines 158-187) for element `e` and one rule
`(accession, info)`, acting on the state `(meta, c)`. -/
def cvParam_rule (desc : String → List String) (software_list : List Software)
    (e : XElem) (st : Record × Nat) (acc : String) (info : TermInfo) :
    Except String (Record × Nat) :=
  if (desc acc).contains e.accession then
    let meta_name := if info.attrib then e.tag else info.name
    (if info.plus1 then
      (mkEntry e info.value) >>= fun entry =>
        let meta :=
          match odFind st.1 meta_name with
          | some (.entry_list es) => odAssign st.1 meta_name (.entry_list (odAssign es st.2 entry))
          | _ => odAssign st.1 meta_name (.entry_list [(st.2, entry)])
        .ok (meta, st.2 + 1)
    else
      (mkEntry e info.value) >>= fun entry =>
        .ok (odAssign st.1 meta_name (.dict entry), st.2)) >>= fun st =>
    (if info.soft then
      match e.softwareRef with
      | some sr => .ok (software software_list sr meta_name st.1, st.2)
      | none => .error "KeyError"
    else .ok st)
  else .ok st

/-- mzMLmeta.cvParam_loop (src/mzml_2_isa/mzml.py lines 144-187): for every
element, for every rule of the location, record the matched CV under the
computed field key.  `desc` is the obo descendant-closure oracle, `terms` the
rule table of one location, and the counter `c` starts at 1. -/
def cvParam_loop (desc : String → List String) (software_list : List Software)
    (elements : List XElem) (terms : List (String × TermInfo)) :
    Except String Record :=
  (elements.foldlM
    (fun st e => terms.foldlM (fun st ai => cvParam_rule desc software_list e st ai.1 ai.2) st)
    (([] : Record), 1)) >>= fun st => .ok st.1

/-- Python `int(q)` on a float value: truncation toward zero. -/
def pyInt (q : ℚ) : Int := if 0 ≤ q then ⌊q⌋ else ⌈q⌉

/-- The `MS:1000501` (scan window lower limit) values collected by
mzMLmeta.derived (src/mzml_2_isa/mzml.py lines 298-301) from the scan-window
cvParams, given as (accession, numeric value) pairs. -/
def mz_lows (cvs : List (String × ℚ)) : List ℚ :=
  cvs.filterMap (fun p => if p.1 = "MS:1000501" then some p.2 else none)

/-- The `MS:1000500` (scan window upper limit) values collected by
mzMLmeta.derived (src/mzml_2_isa/mzml.py lines 298-303). -/
def mz_highs (cvs : List (String × ℚ)) : List ℚ :=
  cvs.filterMap (fun p => if p.1 = "MS:1000500" then some p.2 else none)

/-- The m/z-range computation of mzMLmeta.derived (src/mzml_2_isa/mzml.py
lines 292-307): `str(int(min(minmz_l))) + " - " + str(int(max(maxmz_l)))`.
`min`/`max` of an empty list is Python's ValueError. -/
def derived_mzrange (cvs : List (String × ℚ)) : Except String String :=
  match (mz_lows cvs).min?, (mz_highs cvs).max? with
  | some m, some M => .ok (toString (pyInt m) ++ " - " ++ toString (pyInt M))
  | _, _ => .error "ValueError"

/-- The polarity computation of mzMLmeta.derived (src/mzml_2_isa/mzml.py lines
269-287), over the accessions of all spectrum-level cvParams: `MS:1000130`
sets the positive flag, `MS:1000129` the negative flag. -/
def derived_polarity (accs : List String) : String :=
  let pn := accs.foldl
    (fun pn a => (pn.1 || decide (a = "MS:1000130"), pn.2 || decide (a = "MS:1000129")))
    (false, false)
  if pn.1 && pn.2 then "positive/negative"
  else if pn.1 then "positive"
  else if pn.2 then "negative"
  else "Not determined"

/-- The `keep` allow-list of mzMLmeta.isa_tab_compatible (src/mzml_2_isa/mzml.py
lines 347-348). -/
def keep : List String :=
  ["data transformation", "data transformation software version",
   "data transformation software", "term_source", "Raw Spectral Data File",
   "MS Assay Name"]

/-- mzMLmeta.isa_tab_compatible (src/mzml_2_isa/mzml.py lines 345-354): rename
every field to `Parameter Value[<name>]` except the `keep` allow-list, which is
copied verbatim. -/
def isa_tab_compatible (meta : Record) : Record :=
  meta.foldl
    (fun acc kv =>
      if keep.contains kv.1 then odAssign acc kv.1 kv.2
      else odAssign acc ("Parameter Value[" ++ kv.1 ++ "]") kv.2)
    []

end mzml_2_isa

namespace isa_mzML

/-- mzMLmeta.software (src/isa_mzML.py lines 198-211): like the revised
variant but with `_software_version` / `_software` key suffixes. -/
def software (software_list : List Software) (soft_ref : String) (nm : String)
    (meta : Record) : Record :=
  software_list.foldl
    (fun m e =>
      if e.id = soft_ref then
        let m := if e.version ≠ "" then
          odAssign m (nm ++ "_software_version") (.dict ⟨none, none, some e.version⟩)
        else m
        e.cvs.foldl (fun m ie => odAssign m (nm ++ "_software") (.dict ⟨some ie.1, some ie.2, none⟩)) m
      else m)
    meta

/-- One iteration of the inner rule loop of the legacy mzMLmeta.cvParam_loop
(src/isa_mzML.py lines 125-149): the field key is `e.tag + str(c)` for
attribute+multiple rules, `e.tag` for attribute-only rules, `name + str(c)`
for multiple-only rules, and `name` otherwise; no entry_list aggregation. -/
def cvParam_rule (desc : String → List String) (software_list : List Software)
    (e : XElem) (st : Record × Nat) (acc : String) (info : TermInfo) :
    Except String (Record × Nat) :=
  if (desc acc).contains e.accession then
    let mc : String × Nat :=
      if info.attrib && info.plus1 then (e.tag ++ toString st.2, st.2 + 1)
      else if info.attrib then (e.tag, st.2)
      else if info.plus1 then (info.name ++ toString st.2, st.2 + 1)
      else (info.name, st.2)
    (mkEntry e info.value) >>= fun entry =>
      let meta := odAssign st.1 mc.1 (.dict entry)
      (if info.soft then
        match e.softwareRef with
        | some sr => .ok (software software_list sr mc.1 meta, mc.2)
        | none => .error "KeyError"
      else .ok (meta, mc.2))
  else .ok st

/-- Legacy mzMLmeta.cvParam_loop (src/isa_mzML.py lines 116-149). -/
def cvParam_loop (desc : String → List String) (software_list : List Software)
    (elements : List XElem) (terms : List (String × TermInfo)) :
    Except String Record :=
  (elements.foldlM
    (fun st e => terms.foldlM (fun st ai => cvParam_rule desc software_list e st ai.1 ai.2) st)
    (([] : Record), 1)) >>= fun st => .ok st.1

/-- One per-file metadata record of the legacy extractor as consumed by
isa_assay_file: a dictionary of leaf dicts. -/
abbrev LegacyRecord := List (String × CVDict)

/-- Python `file[k]` on a legacy record: KeyError when the field is absent. -/
def getField (r : LegacyRecord) (k : String) : Except String CVDict :=
  match odFind r k with
  | some d => .ok d
  | none => .error "KeyError"

/-- Python `d['value']` on a leaf dict. -/
def dictValue (d : CVDict) : Except String String :=
  match d.value with
  | some v => .ok v
  | none => .error "KeyError"

/-- Python `d['name']` on a leaf dict. -/
def dictName (d : CVDict) : Except String String :=
  match d.name with
  | some v => .ok v
  | none => .error "KeyError"

/-- Python `d['accession']` on a leaf dict. -/
def dictAccession (d : CVDict) : Except String String :=
  match d.accession with
  | some v => .ok v
  | none => .error "KeyError"

/-- The six located column indexes of isa_assay_file.__init__
(src/isa_mzML.py lines 323-328).  A field is `none` when the corresponding
Python local variable was never assigned (its use later raises NameError). -/
structure ColIdx where
  polarity_idx : Option Nat
  mzrange_idx : Option Nat
  instrument_idx : Option Nat
  ionsource_idx : Option Nat
  detector_idx : Option Nat
  raw_data_idx : Option Nat
deriving Repr, DecidableEq

/-- The single try-block of isa_assay_file.__init__ (src/isa_mzML.py lines
322-330): the six `head_short.index(...) + adj` lookups run in order inside
one `try`; the first ValueError aborts the block, leaving every later
variable unassigned. -/
def locate_columns (head_short : List String) (adj : Nat) : ColIdx :=
  match head_short.findIdx? (fun y => decide (y = "Parameter Value[Scan polarity]")) with
  | none => ⟨none, none, none, none, none, none⟩
  | some p =>
    match head_short.findIdx? (fun y => decide (y = "Parameter Value[Scan m/z range]")) with
    | none => ⟨some (p + adj), none, none, none, none, none⟩
    | some mz =>
      match head_short.findIdx? (fun y => decide (y = "Parameter Value[Instrument]")) with
      | none => ⟨some (p + adj), some (mz + adj), none, none, none, none⟩
      | some ins =>
        match head_short.findIdx? (fun y => decide (y = "Parameter Value[Ion source]")) with
        | none => ⟨some (p + adj), some (mz + adj), some (ins + adj), none, none, none⟩
        | some io =>
          match head_short.findIdx? (fun y => decide (y = "Parameter Value[Mass analyzer]")) with
          | none => ⟨some (p + adj), some (mz + adj), some (ins + adj), some (io + adj), none, none⟩
          | some det =>
            match head_short.findIdx? (fun y => decide (y = "Raw Spectral Data File")) with
            | none => ⟨some (p + adj), some (mz + adj), some (ins + adj), some (io + adj),
                       some (det + adj), none⟩
            | some raw => ⟨some (p + adj), some (mz + adj), some (ins + adj), some (io + adj),
                           some (det + adj), some (raw + adj)⟩

/-- Reading a Python local that the aborted try-block never assigned raises
NameError. -/
def useIdx (o : Option Nat) : Except String Nat :=
  match o with
  | some i => .ok i
  | none => .error "NameError"

/-- The per-record update block of isa_assay_file.__init__ (src/isa_mzML.py
lines 340-355), in source order: each statement evaluates the record field
first (KeyError), then the column variable (NameError), then assigns the cell
(IndexError). -/
def legacy_update (cols : ColIdx) (row0 : List String) (file : LegacyRecord) :
    Except String (List String) := do
  let v ← getField file "polarity" >>= dictValue
  let i ← useIdx cols.polarity_idx
  let row ← pySetCell row0 i v
  let v2 ← getField file "mzrange" >>= dictValue
  let i2 ← useIdx cols.mzrange_idx
  let row ← pySetCell row i2 v2
  let n3 ← getField file "instrument_manufacturer" >>= dictName
  let i3 ← useIdx cols.instrument_idx
  let row ← pySetCell row i3 n3
  let t4 ← getField file "term_source" >>= dictValue
  let row ← pySetCell row ((i3 : Int) + 1) t4
  let a5 ← getField file "instrument_manufacturer" >>= dictAccession
  let row ← pySetCell row ((i3 : Int) + 2) a5
  let n6 ← getField file "ionization_type" >>= dictName
  let i6 ← useIdx cols.ionsource_idx
  let row ← pySetCell row i6 n6
  let t7 ← getField file "term_source" >>= dictValue
  let row ← pySetCell row ((i6 : Int) + 1) t7
  let a8 ← getField file "ionization_type" >>= dictAccession
  let row ← pySetCell row ((i6 : Int) + 2) a8
  let n9 ← getField file "detector_type" >>= dictName
  let i9 ← useIdx cols.detector_idx
  let row ← pySetCell row i9 n9
  let t10 ← getField file "term_source" >>= dictValue
  let row ← pySetCell row ((i9 : Int) + 1) t10
  let a11 ← getField file "detector_type" >>= dictAccession
  let row ← pySetCell row ((i9 : Int) + 2) a11
  let v12 ← getField file "raw_data_file" >>= dictValue
  let i12 ← useIdx cols.raw_data_idx
  pySetCell row i12 v12

/-- isa_assay_file.__init__ (src/isa_mzML.py lines 302-357), on the already
tab-split and quote-stripped header row and representative data row.  The
`current_row = standard_row` assignment aliases the representative row, so
updates persist across records; the result is the written header and the
sequence of written data rows. -/
def isa_assay_file (headers_l standard_row : List String)
    (metalist : List LegacyRecord) :
    Except String (List String × List (List String)) := do
  let mass_protocol_idx ← pyIndex standard_row "Mass spectrometry"
  let cols := locate_columns (headers_l.drop (mass_protocol_idx + 1)) (mass_protocol_idx + 1)
  let st ← metalist.foldlM
    (fun (st : List String × List (List String)) file =>
      (legacy_update cols st.1 file) >>= fun r => .ok (r, st.2 ++ [r]))
    (standard_row, ([] : List (List String)))
  pure (headers_l, st.2)

end isa_mzML

namespace mzml2isa

/-- ISA_Tab.update_row (src/mzml2isa/isa.py lines 335-370): write `name` at
the target column (advancing by one), then `"MS"` and the accession at the
next two columns (advancing by two), then `value` at the current column; each
key is optional. -/
def update_row (row : List String) (main : Nat) (meta_val : CVDict) :
    Except String (List String) :=
  (match meta_val.name with
   | some n => (pySetCell row main n) >>= fun r => .ok (r, main + 1)
   | none => .ok (row, main)) >>= fun rm =>
  (match meta_val.accession with
   | some a =>
     (pySetCell rm.1 rm.2 "MS") >>= fun r =>
     (pySetCell r (rm.2 + 1) a) >>= fun r2 => .ok (r2, rm.2 + 2)
   | none => .ok rm) >>= fun rm =>
  (match meta_val.value with
   | some v => pySetCell rm.1 rm.2 v
   | none => .ok rm.1)

/-- The entry-consumption loop of ISA_Tab.create_assay (src/mzml2isa/isa.py
lines 262-275): walk the entry list, popping the last element of the
reversed index list (i.e. the smallest remaining column) for each entry;
entries beyond the available columns are dropped (IndexError → pass). -/
def consume_entries (row : List String) (indices : List Nat)
    (es : List (Nat × CVDict)) : Except String (List String) :=
  match es with
  | [] => .ok row
  | (_, mv) :: rest =>
    match indices.getLast? with
    | none => consume_entries row indices rest
    | some main => (update_row row main mv) >>= fun r =>
        consume_entries r indices.dropLast rest

/-- The mutable per-record state of ISA_Tab.create_assay: `pre_row` (the
pre-MS segment, shared across records), `new_mass_row` (the MS-block buffer,
initialized once, src/mzml2isa/isa.py line 239) and the running
`sample_names` list. -/
structure GenState where
  pre_row : List String
  new_mass_row : List String
  sample_names : List String
deriving Repr, DecidableEq

/-- The `Sample Name` special case of ISA_Tab.create_assay (src/mzml2isa/isa.py
lines 253-255): write `value['value']` into the pre-MS segment and append it
to the running sample-name list. -/
def sample_name_step (sample_name_idx : Nat) (st : GenState) (key : String)
    (value : MetaValue) : Except String GenState :=
  if key = "Sample Name" then
    match value with
    | .dict d =>
      match d.value with
      | some s => (pySetCell st.pre_row sample_name_idx s) >>= fun p =>
          .ok ⟨p, st.new_mass_row, st.sample_names ++ [s]⟩
      | none => .error "KeyError"
    | .entry_list _ => .error "KeyError"
  else .ok st

/-- The MS-block update of ISA_Tab.create_assay (src/mzml2isa/isa.py lines
260-284): entry_list aggregates fill every matching column in ascending
order; a plain field fills its (first) matching column; a missing column is
silently skipped. -/
def mass_step (mass_headers : List String) (st : GenState) (key : String)
    (value : MetaValue) : Except String GenState :=
  match value with
  | .entry_list es =>
    let indices := ((mass_headers.enum.filter (fun p => decide (p.2 = key))).map Prod.fst).reverse
    (consume_entries st.new_mass_row indices es) >>= fun nm =>
      .ok ⟨st.pre_row, nm, st.sample_names⟩
  | .dict d =>
    match mass_headers.findIdx? (fun h => decide (h = key)) with
    | none => .ok st
    | some main => (update_row st.new_mass_row main d) >>= fun nm =>
        .ok ⟨st.pre_row, nm, st.sample_names⟩

/-- The body of the field loop of ISA_Tab.create_assay (src/mzml2isa/isa.py
lines 251-284): the `Sample Name` check runs first and the entry_list /
plain-column update runs afterwards on every field (the Python code has no
`elif`). -/
def assay_field_step (sample_name_idx : Nat) (mass_headers : List String)
    (st : GenState) (kv : String × MetaValue) : Except String GenState :=
  (sample_name_step sample_name_idx st kv.1 kv.2) >>= fun st =>
  mass_step mass_headers st kv.1 kv.2

/-- One column of `full_row` (the list `[col[i] for col in full_row]` of
ISA_Tab.remove_blank_columns, src/mzml2isa/isa.py line 386). -/
def column_at (full_row : List (List String)) (i : Nat) : Except String (List String) :=
  full_row.mapM (fun col => pyGetCell col i)

/-- ISA_Tab.remove_blank_columns (src/mzml2isa/isa.py lines 372-398): collect
every index in `range(start, stop-3)` whose column is the empty string in
every row, then delete those indexes from every row and from the header. -/
def remove_blank_columns (start stop : Nat) (full_row : List (List String))
    (headers_row : List String) :
    Except String (List String × List (List String)) :=
  ((List.range' start (stop - 3 - start)).foldlM
    (fun acc i => (column_at full_row i) >>= fun column =>
      .ok (if column.count "" = full_row.length then acc ++ [i] else acc))
    ([] : List Nat)) >>= fun delete_cols =>
  .ok (removeIdxs headers_row delete_cols,
       full_row.map (fun row => removeIdxs row delete_cols))

/-- The default assay file name `'a_'+name+'_metabolite_profiling_mass_spectrometry.txt'`
(src/mzml2isa/isa.py line 92). -/
def assay_file_name (nm : String) : String :=
  "a_" ++ nm ++ "_metabolite_profiling_mass_spectrometry.txt"

/-- The per-polarity assay file name (src/mzml2isa/isa.py lines 93, 320):
the template formatted with `polarity[:3].upper()`. -/
def assay_polar_file_name (nm p : String) : String :=
  "a_" ++ nm ++ "_metabolite_profiling_mass_spectrometry_" ++ pyUpper (pyTake p 3) ++ ".txt"

/-- The polarity-split writing loop body (src/mzml2isa/isa.py lines 317-330):
`polarity_row = [x for x in full_row if x[polarity_idx] == polarity]` filters
the current (aliased, possibly already mutated) rows, and each selected row is
mutated at the data-transformation cell before being written.  Returns the
updated row list and the rows written for this polarity. -/
def mutate_group (rows : List (List String)) (polarity_idx : Nat) (p : String)
    (dt : Int) : Except String (List (List String) × List (List String)) :=
  match rows with
  | [] => .ok ([], [])
  | r :: rest =>
    if r.get? polarity_idx = some p then
      (pySetCell r dt "Data transformation") >>= fun r' =>
      (mutate_group rest polarity_idx p dt) >>= fun rg =>
      .ok (r' :: rg.1, r' :: rg.2)
    else
      (mutate_group rest polarity_idx p dt) >>= fun rg =>
      .ok (r :: rg.1, rg.2)

/-- The single-file branch of the assay writer (src/mzml2isa/isa.py lines
303-314): one file with every row, each row's data-transformation cell
(2 columns before "Derived Spectral Data File" in the current header)
set to the literal "Data transformation". -/
def write_single (headers_row : List String) (full_row : List (List String))
    (nm : String) :
    Except String (List (String × List (List String)) × List String) :=
  (pyIndex headers_row "Derived Spectral Data File") >>= fun dsd =>
  (full_row.mapM (fun row => pySetCell row ((dsd : Int) - 2) "Data transformation")) >>= fun rows =>
  .ok ([(assay_file_name nm, rows)], [assay_file_name nm])

/-- The split branch of the assay writer (src/mzml2isa/isa.py lines 316-331):
one file per distinct polarity value, in order, each containing the rows whose
cell at `polarity_idx` equals the value, with the data-transformation cell
restored; the rows are shared (aliased) across iterations. -/
def write_split (headers_row : List String) (polarity_idx : Nat) (nm : String)
    (polarities : List String)
    (st : List (String × List (List String)) × List String × List (List String)) :
    Except String (List (String × List (List String)) × List String) :=
  match polarities with
  | [] => .ok (st.1, st.2.1)
  | p :: rest =>
    (pyIndex headers_row "Derived Spectral Data File") >>= fun dsd =>
    (mutate_group st.2.2 polarity_idx p ((dsd : Int) - 2)) >>= fun rg =>
    write_split headers_row polarity_idx nm rest
      (st.1 ++ [(assay_polar_file_name nm p, rg.2)],
       st.2.1 ++ [assay_polar_file_name nm p], rg.1)

/-- The assay-file writing stage of ISA_Tab.create_assay (src/mzml2isa/isa.py
lines 295-331): read every row's polarity cell at `polarity_idx` (an index
located in the PRE-pruning header, applied here to the pruned rows), collect
the distinct values, and write either one file (one distinct value, or
splitting disabled) or one file per distinct value. -/
def write_assays (headers_row : List String) (full_row : List (List String))
    (polarity_idx : Nat) (separate_polarity : Bool) (nm : String) :
    Except String (List (String × List (List String)) × List String) :=
  (full_row.mapM (fun x => pyGetCell x polarity_idx)) >>= fun pol_vals =>
  if (pySet pol_vals).length = 1 ∨ separate_polarity = false then
    write_single headers_row full_row nm
  else
    write_split headers_row polarity_idx nm (pySet pol_vals) ([], [], full_row)

/-- The observable result of ISA_Tab.create_assay: the running sample-name
list, the rows as built (before pruning), the pruned header and rows, and the
written files (name, rows) with the written-assay name list. -/
structure AssayOutput where
  sample_names : List String
  built_rows : List (List String)
  headers_pruned : List String
  rows_pruned : List (List String)
  files : List (String × List (List String))
  written_assays : List String
deriving Repr, DecidableEq

/-- The body of the record loop of ISA_Tab.create_assay (src/mzml2isa/isa.py
lines 249-287): process every field of one record on the shared state and
append the completed row `pre_row + new_mass_row + post_row`. -/
def assay_record_step (sample_name_idx : Nat) (mass_headers post_row : List String)
    (acc : GenState × List (List String)) (file_meta : Record) :
    Except String (GenState × List (List String)) :=
  (file_meta.foldlM (assay_field_step sample_name_idx mass_headers) acc.1) >>= fun st =>
  .ok (st, acc.2 ++ [st.pre_row ++ st.new_mass_row ++ post_row])

/-- ISA_Tab.create_assay (src/mzml2isa/isa.py lines 208-331) on an already
tab-split template (header row and representative data row).  Note:
`new_mass_row` is blanked ONCE (line 239), before the record loop, and
`pre_row` is likewise shared, so both persist from record to record; and
`polarity_idx` is located in the original header (line 231) but applied to
the pruned rows (line 297). -/
def create_assay (headers_row standard_row : List String) (metalist : List Record)
    (separate_polarity : Bool) (nm : String) : Except String AssayOutput :=
  (pyIndex headers_row "Sample Name") >>= fun sample_name_idx =>
  (pyIndex standard_row "Mass spectrometry") >>= fun mass_protocol_idx =>
  (pyIndex standard_row "Metabolite identification") >>= fun mass_end_idx =>
  (pyIndex headers_row "Parameter Value[Scan polarity]") >>= fun polarity_idx =>
  let mass_headers := (headers_row.drop (mass_protocol_idx + 1)).take (mass_end_idx - (mass_protocol_idx + 1))
  let post_row := standard_row.drop mass_end_idx
  (metalist.foldlM (assay_record_step sample_name_idx mass_headers post_row)
    (⟨standard_row.take (mass_protocol_idx + 1), List.replicate mass_headers.length "", []⟩, [])) >>= fun res =>
  (remove_blank_columns mass_protocol_idx mass_end_idx res.2 headers_row) >>= fun hr =>
  (write_assays hr.1 hr.2 polarity_idx separate_polarity nm) >>= fun fw =>
  .ok ⟨res.1.sample_names, res.2, hr.1, hr.2, fw.1, fw.2⟩

/-- The Study Assay line expansion of ISA_Tab.create_investigation
(src/mzml2isa/isa.py lines 168-179): a line starting with "Study Assay" is
rebuilt whenever the number of written assays differs from 1 — the
"Study Assay File Name" line gets one quoted cell per written assay, any
other such line gets one copy of its stripped second cell per written assay.
Other lines pass through unchanged (the placeholder substitution applied
afterwards, line 181, is outside this step). -/
def study_assay_line (l : String) (written_assays : List String) :
    Except String String :=
  if pyTake l 11 = "Study Assay" ∧ written_assays.length ≠ 1 then
    let assay_row := pySplitTab l
    if assay_row.headD "" = "Study Assay File Name" then
      .ok (assay_row.headD "" ++ String.join (written_assays.map (fun a => "\t\"" ++ a ++ "\"")) ++ "\n")
    else
      match assay_row.get? 1 with
      | none => .error "IndexError"
      | some c1 =>
        .ok (assay_row.headD "" ++ "\t" ++
             String.intercalate "\t" (List.replicate written_assays.length (pyStrip c1)) ++ "\n")
  else .ok l

/-- ISA_Tab.create_study (src/mzml2isa/isa.py lines 184-205): write the
template's header line (tab-split) and then one rendered row per accumulated
sample name.  `render` stands for the template substitution
`default_line.format(name=…, **usermeta).split('\t')` applied to one name. -/
def create_study (headers_line : String) (render : String → List String)
    (sample_names : List String) : List (List String) :=
  pySplitTab headers_line :: sample_names.map render

end mzml2isa

/-- A small concrete assay template used by the concrete evaluations below:
the header row of a template file (11 columns). -/
def exHeaders : List String :=
  ["Sample Name", "Protocol REF", "HA", "HB", "Parameter Value[Scan polarity]",
   "HD", "HC", "HE", "Metab", "Derived Spectral Data File", "HEnd"]

/-- The representative data row of the same template: the MS block runs from
just after "Mass spectrometry" (index 1) up to "Metabolite identification"
(index 8), i.e. columns 2-7. -/
def exStandard : List String :=
  ["", "Mass spectrometry", "", "", "", "", "", "", "Metabolite identification", "", ""]

/-- Two metadata records whose true Scan-polarity values are "positive" and
"negative" and which both write "x" into the "HC" column; the records leave
template columns 2 and 3 blank everywhere, so pruning deletes those columns
and shifts every later column of the rows two places to the left. -/
def cexRecords : List Record :=
  [[("Parameter Value[Scan polarity]", MetaValue.dict ⟨none, none, some "positive"⟩),
    ("HC", MetaValue.dict ⟨none, none, some "x"⟩)],
   [("Parameter Value[Scan polarity]", MetaValue.dict ⟨none, none, some "negative"⟩),
    ("HC", MetaValue.dict ⟨none, none, some "x"⟩)]]

/-- A concrete descendant-closure oracle for the extraction examples. -/
def descEx : String → List String := fun a =>
  if a = "MS:1000482" then ["MS:1000482", "MS:9482"] else
  if a = "MS:1000027" then ["MS:1000027", "MS:9027", "MS:9028"] else [a]

/-- A legacy assay header that is missing the expected column
"Parameter Value[Scan m/z range]" (the second lookup) but contains all the
other five expected columns. -/
def legHeaders : List String :=
  ["A", "B", "Parameter Value[Scan polarity]", "Parameter Value[Instrument]", "h4",
   "h5", "Parameter Value[Ion source]", "h7", "h8", "Parameter Value[Mass analyzer]",
   "h10", "h11", "Raw Spectral Data File"]

/-- A legacy assay header that contains every expected column except the last
one, "Raw Spectral Data File". -/
def legHeadersW : List String :=
  ["A", "B", "Parameter Value[Scan polarity]", "Parameter Value[Scan m/z range]",
   "Parameter Value[Instrument]", "h5", "h6", "Parameter Value[Ion source]", "h8",
   "h9", "Parameter Value[Mass analyzer]", "h11", "h12", "HX"]

/-- The representative data row matching the legacy headers. -/
def legStandard : List String :=
  ["s", "Mass spectrometry", "", "", "", "", "", "", "", "", "", "", "", ""]

/-- A complete legacy metadata record containing every field the legacy assay
patcher reads. -/
def legRecord : isa_mzML.LegacyRecord :=
  [("polarity", ⟨none, none, some "positive"⟩),
   ("mzrange", ⟨none, none, some "100 - 200"⟩),
   ("instrument_manufacturer", ⟨some "MS:1", some "Thermo", none⟩),
   ("term_source", ⟨none, none, some "MS"⟩),
   ("ionization_type", ⟨some "MS:2", some "ESI", none⟩),
   ("detector_type", ⟨some "MS:3", some "orbitrap", none⟩),
   ("raw_data_file", ⟨none, none, some "f.raw"⟩)]

/-- The delete-column list computed by ISA_Tab.remove_blank_columns, written
in closed form: the indexes of `range(start, stop - 3)` that are blank in
every row. -/
def delete_cols_spec (start stop : Nat) (full_row : List (List String)) : List Nat :=
  (List.range' start (stop - 3 - start)).filter
    (fun i => full_row.all (fun r => r.getD i "" == ""))

/-- Two records with distinct polarity values that also fill the template's
prunable columns, so that pruning deletes nothing and the polarity index is
not shifted. -/
def c2Records : List Record :=
  [[("Parameter Value[Scan polarity]", MetaValue.dict ⟨none, none, some "positive"⟩),
    ("HA", MetaValue.dict ⟨none, none, some "a"⟩),
    ("HB", MetaValue.dict ⟨none, none, some "b"⟩)],
   [("Parameter Value[Scan polarity]", MetaValue.dict ⟨none, none, some "negative"⟩),
    ("HA", MetaValue.dict ⟨none, none, some "a"⟩),
    ("HB", MetaValue.dict ⟨none, none, some "b"⟩)]]

/-- The generator output on `exHeaders`/`exStandard` with `c2Records`. -/
def c2OutW : mzml2isa.AssayOutput :=
  ⟨[],
   [["", "Mass spectrometry", "a", "b", "positive", "", "", "", "Metabolite identification", "", ""],
    ["", "Mass spectrometry", "a", "b", "negative", "", "", "", "Metabolite identification", "", ""]],
   ["Sample Name", "Protocol REF", "HA", "HB", "Parameter Value[Scan polarity]", "HD", "HC",
    "HE", "Metab", "Derived Spectral Data File", "HEnd"],
   [["", "Mass spectrometry", "a", "b", "positive", "", "", "", "Metabolite identification", "", ""],
    ["", "Mass spectrometry", "a", "b", "negative", "", "", "", "Metabolite identification", "", ""]],
   [("a_study_metabolite_profiling_mass_spectrometry_POS.txt",
     [["", "Mass spectrometry", "a", "b", "positive", "", "", "Data transformation",
       "Metabolite identification", "", ""]]),
    ("a_study_metabolite_profiling_mass_spectrometry_NEG.txt",
     [["", "Mass spectrometry", "a", "b", "negative", "", "", "Data transformation",
       "Metabolite identification", "", ""]])],
   ["a_study_metabolite_profiling_mass_spectrometry_POS.txt",
    "a_study_metabolite_profiling_mass_spectrometry_NEG.txt"]⟩

/-- A raw extractor record holding only a Scan-polarity field. -/
def c10Meta : Record :=
  [("Scan polarity", MetaValue.dict ⟨none, none, some "positive"⟩)]

/-- The generator output on `exHeaders`/`exStandard` with the ISA-renamed
projection of `c10Meta` as the only record. -/
def c10Out : mzml2isa.AssayOutput :=
  ⟨[],
   [["", "Mass spectrometry", "", "", "positive", "", "", "", "Metabolite identification", "", ""]],
   ["Sample Name", "Protocol REF", "Parameter Value[Scan polarity]", "HD", "HC", "HE",
    "Metab", "Derived Spectral Data File", "HEnd"],
   [["", "Mass spectrometry", "positive", "", "", "", "Metabolite identification", "", ""]],
   [("a_study_metabolite_profiling_mass_spectrometry.txt",
     [["", "Mass spectrometry", "positive", "", "", "Data transformation",
       "Metabolite identification", "", ""]])],
   ["a_study_metabolite_profiling_mass_spectrometry.txt"]⟩

/-
Lemmas and claim theorems.
-/

/-- Inversion of a successful bind in the Except monad. -/
theorem except_bind_ok {ε α β : Type} {x : Except ε α} {f : α → Except ε β} {b : β}
    (h : (x >>= f) = .ok b) : ∃ a, x = .ok a ∧ f a = .ok b := by
  cases x with
  | error e => simp [Bind.bind, Except.bind] at h
  | ok a => exact ⟨a, rfl, by simpa [Bind.bind, Except.bind] using h⟩

/-- A successful `pySetCell` preserves the row length. -/
theorem pySetCell_length {row : List String} {i : Int} {v : String} {r' : List String}
    (h : pySetCell row i v = .ok r') : r'.length = row.length := by
  simp only [pySetCell] at h
  split_ifs at h <;> cases h <;> simp

/-- For a non-negative in-bounds index, `pySetCell` is `List.set`. -/
theorem pySetCell_nonneg {row : List String} {i : Int} {v : String}
    (h0 : 0 ≤ i) (h1 : i < row.length) :
    pySetCell row i v = .ok (row.set i.toNat v) := by
  unfold pySetCell
  have : ¬ i < 0 := not_lt.mpr h0
  simp only [this, if_false]
  rw [if_pos ⟨h0, h1⟩]

/-- The polarity flags of mzMLmeta.derived are an `or`-fold. -/
theorem derived_polarity_foldl (accs : List String) (b : Bool × Bool) :
    accs.foldl
      (fun pn a => (pn.1 || decide (a = "MS:1000130"), pn.2 || decide (a = "MS:1000129"))) b
      = (b.1 || accs.any (fun a => decide (a = "MS:1000130")),
         b.2 || accs.any (fun a => decide (a = "MS:1000129"))) := by
  induction accs generalizing b with
  | nil => simp
  | cons x xs ih => simp [List.foldl_cons, ih, Bool.or_assoc]

/-- C6: scanning all spectrum-level CV accessions, the recorded polarity is
"positive/negative" when both MS:1000130 and MS:1000129 occur, "positive"
when only MS:1000130 occurs, "negative" when only MS:1000129 occurs, and
"Not determined" when neither occurs (mzMLmeta.derived, src/mzml_2_isa/mzml.py
lines 264-287). -/
theorem C6_polarity_cases (accs : List String) :
    mzml_2_isa.derived_polarity accs =
      if "MS:1000130" ∈ accs then
        (if "MS:1000129" ∈ accs then "positive/negative" else "positive")
      else
        (if "MS:1000129" ∈ accs then "negative" else "Not determined") := by
  unfold mzml_2_isa.derived_polarity
  rw [derived_polarity_foldl]
  by_cases h1 : "MS:1000130" ∈ accs <;> by_cases h2 : "MS:1000129" ∈ accs <;>
    simp [h1, h2, List.any_eq_true]

/-- A min-fold over a list returns any member that is a lower bound. -/
theorem foldl_min_eq : ∀ (as : List ℚ) (a m : ℚ), (m = a ∨ m ∈ as) → m ≤ a →
    (∀ x ∈ as, m ≤ x) → as.foldl min a = m := by
  intro as
  induction as with
  | nil =>
    intro a m hm ha _
    rcases hm with h | h
    · simpa using h.symm
    · cases h
  | cons b bs ih =>
    intro a m hm ha hall
    have hb : m ≤ b := hall b (by simp)
    apply ih (min a b) m ?_ (le_min ha hb) (fun x hx => hall x (by simp [hx]))
    rcases hm with h | h
    · left
      subst h
      exact (min_eq_left hb).symm
    · rcases (List.mem_cons.mp h) with h | h
      · left
        subst h
        exact (min_eq_right ha).symm
      · right
        exact h

/-- A max-fold over a list returns any member that is an upper bound. -/
theorem foldl_max_eq : ∀ (as : List ℚ) (a m : ℚ), (m = a ∨ m ∈ as) → a ≤ m →
    (∀ x ∈ as, x ≤ m) → as.foldl max a = m := by
  intro as
  induction as with
  | nil =>
    intro a m hm ha _
    rcases hm with h | h
    · simpa using h.symm
    · cases h
  | cons b bs ih =>
    intro a m hm ha hall
    have hb : b ≤ m := hall b (by simp)
    apply ih (max a b) m ?_ (max_le ha hb) (fun x hx => hall x (by simp [hx]))
    rcases hm with h | h
    · left
      subst h
      exact (max_eq_left hb).symm
    · rcases (List.mem_cons.mp h) with h | h
      · left
        subst h
        exact (max_eq_right ha).symm
      · right
        exact h

/-- A list whose member `m` is a lower bound has `min? = some m`. -/
theorem q_min?_eq_some {l : List ℚ} {m : ℚ} (h1 : m ∈ l) (h2 : ∀ x ∈ l, m ≤ x) :
    l.min? = some m := by
  cases l with
  | nil => cases h1
  | cons a as =>
    have : (a :: as).min? = some (as.foldl min a) := rfl
    rw [this, foldl_min_eq as a m (by simpa using (List.mem_cons.mp h1)) (h2 a (by simp))
      (fun x hx => h2 x (by simp [hx]))]

/-- A list whose member `m` is an upper bound has `max? = some m`. -/
theorem q_max?_eq_some {l : List ℚ} {m : ℚ} (h1 : m ∈ l) (h2 : ∀ x ∈ l, x ≤ m) :
    l.max? = some m := by
  cases l with
  | nil => cases h1
  | cons a as =>
    have : (a :: as).max? = some (as.foldl max a) := rfl
    rw [this, foldl_max_eq as a m (by simpa using (List.mem_cons.mp h1)) (h2 a (by simp))
      (fun x hx => h2 x (by simp [hx]))]

/-- C7: for every run with at least one MS:1000501 (low) and one MS:1000500
(high) scan-window value, the recorded m/z range is "<m> - <M>" where `m` is
the integer truncation of the minimum low value and `M` the integer
truncation of the maximum high value (mzMLmeta.derived,
src/mzml_2_isa/mzml.py lines 292-307; Python `int()` truncates toward zero,
which coincides with the floor on the non-negative values of an m/z axis). -/
theorem C7_mzrange_floor_truncation (cvs : List (String × ℚ)) (m M : ℚ)
    (hm : m ∈ mzml_2_isa.mz_lows cvs) (hmle : ∀ x ∈ mzml_2_isa.mz_lows cvs, m ≤ x)
    (hM : M ∈ mzml_2_isa.mz_highs cvs) (hMge : ∀ x ∈ mzml_2_isa.mz_highs cvs, x ≤ M) :
    mzml_2_isa.derived_mzrange cvs =
      .ok (toString (mzml_2_isa.pyInt m) ++ " - " ++ toString (mzml_2_isa.pyInt M)) := by
  unfold mzml_2_isa.derived_mzrange
  rw [q_min?_eq_some hm hmle, q_max?_eq_some hM hMge]

/-- Witness for C7: the specification's own example, lows [50.0, 55.2] and
highs [500.7, 499.9], yields "50 - 500". -/
theorem C7_witness :
    mzml_2_isa.derived_mzrange
      [("MS:1000501", (50.0 : ℚ)), ("MS:1000501", 55.2),
       ("MS:1000500", 500.7), ("MS:1000500", 499.9)] = .ok "50 - 500" := by
  have hlow : mzml_2_isa.mz_lows
      [("MS:1000501", (50.0 : ℚ)), ("MS:1000501", 55.2),
       ("MS:1000500", 500.7), ("MS:1000500", 499.9)] = [(50.0 : ℚ), 55.2] := rfl
  have hhigh : mzml_2_isa.mz_highs
      [("MS:1000501", (50.0 : ℚ)), ("MS:1000501", 55.2),
       ("MS:1000500", 500.7), ("MS:1000500", 499.9)] = [(500.7 : ℚ), 499.9] := rfl
  have h := C7_mzrange_floor_truncation
    [("MS:1000501", (50.0 : ℚ)), ("MS:1000501", 55.2),
     ("MS:1000500", 500.7), ("MS:1000500", 499.9)] 50.0 500.7
    (by rw [hlow]; simp)
    (by rw [hlow]; intro x hx; simp at hx; rcases hx with h | h <;> subst h <;> norm_num)
    (by rw [hhigh]; simp)
    (by rw [hhigh]; intro x hx; simp at hx; rcases hx with h | h <;> subst h <;> norm_num)
  rw [h]
  have h1 : mzml_2_isa.pyInt 50.0 = 50 := by
    rw [mzml_2_isa.pyInt, if_pos (by norm_num)]
    norm_num
  have h2 : mzml_2_isa.pyInt 500.7 = 500 := by
    rw [mzml_2_isa.pyInt, if_pos (by norm_num)]
    norm_num
  rw [h1, h2]
  rfl

/-- C1 (code behavior at the failing input): `new_mass_row` is blanked once,
before the record loop (src/mzml2isa/isa.py line 239), so a value written
while processing record 1 (the "HC" cell, MS-block column 6) reappears
verbatim in the row emitted for record 2, although record 2 has no fields at
all.  The spec requires a blank MS-block row per record, under which row 2's
MS-block cells would all be empty. -/
theorem C1_blank_row_carryover :
    (mzml2isa.create_assay exHeaders exStandard
        [[("HC", MetaValue.dict ⟨none, none, some "x"⟩)], []] true "study").map
      (fun o => o.built_rows) =
    .ok [["", "Mass spectrometry", "", "", "", "", "x", "", "Metabolite identification", "", ""],
         ["", "Mass spectrometry", "", "", "", "", "x", "", "Metabolite identification", "", ""]] := by
  rfl

/-- C2 (counterexample): on `exHeaders`/`exStandard` with `cexRecords`,
pruning deletes columns 2 and 3, so the post-pruning "Parameter Value[Scan
polarity]" column (index 2 of the pruned header) holds the two distinct
values "positive" and "negative"; the claim then demands two assay files
(POS and NEG), but the generator reads the polarity through the pre-pruning
index 4 — which lands on the shifted "HC" column, constant "x" — and writes
exactly one assay file. -/
theorem C2_counterexample :
    (mzml2isa.create_assay exHeaders exStandard cexRecords true "study").map
      (fun o =>
        (o.files.map Prod.fst,
         pySet (o.rows_pruned.map (fun r =>
           r.getD ((o.headers_pruned.findIdx?
             (fun h => decide (h = "Parameter Value[Scan polarity]"))).getD 0) "")))) =
    .ok (["a_study_metabolite_profiling_mass_spectrometry.txt"], ["positive", "negative"]) := by
  rfl

/-- C3 (counterexample): for the attribute+multiple rule MS:1000482 the
revised extractor keys the field by the raw tag alone ("cvParam", not
"cvParam1") and wraps it as an entry_list; for the multiple-only rule
MS:1000027 the legacy extractor produces two separate counter-suffixed plain
fields and no entry_list.  Both contradict the claimed key rule. -/
theorem C3_counterexample :
    mzml_2_isa.cvParam_loop descEx [] [⟨"cvParam", "MS:9482", "sn", some "v", none⟩]
        [("MS:1000482", ⟨true, "source_attribute", true, true, false⟩)] =
      .ok [("cvParam", .entry_list [(1, ⟨some "MS:9482", some "sn", some "v"⟩)])] ∧
    isa_mzML.cvParam_loop descEx []
        [⟨"cvParam", "MS:9027", "n1", none, none⟩, ⟨"cvParam", "MS:9028", "n2", none, none⟩]
        [("MS:1000027", ⟨false, "detector_acquisition_mode", true, false, false⟩)] =
      .ok [("detector_acquisition_mode1", .dict ⟨some "MS:9027", some "n1", none⟩),
           ("detector_acquisition_mode2", .dict ⟨some "MS:9028", some "n2", none⟩)] ∧
    ("cvParam" : String) ≠ "cvParam1" :=
  ⟨rfl, rfl, by decide⟩

/-- C4 (counterexample): with the expected column "Parameter Value[Scan m/z
range]" absent from the header, the legacy updater does not locate and fill
the remaining columns — the aborted try-block leaves their index variables
unassigned and the first row update stops the patch with a NameError, so no
data row is written at all. -/
theorem C4_counterexample :
    isa_mzML.isa_assay_file legHeaders legStandard [legRecord] = .error "NameError" := by
  rfl

/-- C5 (counterexample): with zero written assay files (reachable: an empty
record list with splitting enabled writes no assay file), a "Study Assay"
template line IS rewritten — reduced to its first cell plus a tab — although
the claim says a line is expanded exactly when more than one assay file was
written and left alone for one or zero. -/
theorem C5_counterexample :
    mzml2isa.study_assay_line "Study Assay Measurement Type\t\"metabolite profiling\"\n" [] =
      .ok "Study Assay Measurement Type\t\n" ∧
    ("Study Assay Measurement Type\t\n" : String) ≠
      "Study Assay Measurement Type\t\"metabolite profiling\"\n" :=
  ⟨rfl, by decide⟩

/-- C5 (amended): a "Study Assay" line is rebuilt exactly when the number of
written assay files differs from one (so also when zero were written); a line
that does not start with "Study Assay", or when exactly one assay was
written, passes through unchanged; the "Study Assay File Name" line receives
one quoted cell per written file name in write order; every other "Study
Assay" line receives one copy of its stripped second cell per written file
(ISA_Tab.create_investigation, src/mzml2isa/isa.py lines 168-179). -/
theorem C5_amended (l : String) (written_assays : List String) :
    (¬(pyTake l 11 = "Study Assay" ∧ written_assays.length ≠ 1) →
      mzml2isa.study_assay_line l written_assays = .ok l)
    ∧ (pyTake l 11 = "Study Assay" → written_assays.length ≠ 1 →
        (pySplitTab l).headD "" = "Study Assay File Name" →
        mzml2isa.study_assay_line l written_assays =
          .ok ((pySplitTab l).headD "" ++
               String.join (written_assays.map (fun a => "\t\"" ++ a ++ "\"")) ++ "\n"))
    ∧ (pyTake l 11 = "Study Assay" → written_assays.length ≠ 1 →
        (pySplitTab l).headD "" ≠ "Study Assay File Name" →
        ∀ c1, (pySplitTab l).get? 1 = some c1 →
        mzml2isa.study_assay_line l written_assays =
          .ok ((pySplitTab l).headD "" ++ "\t" ++
               String.intercalate "\t" (List.replicate written_assays.length (pyStrip c1)) ++ "\n")) := by
  refine ⟨fun h => ?_, fun h1 h2 h3 => ?_, fun h1 h2 h3 c1 hc1 => ?_⟩
  · rw [mzml2isa.study_assay_line, if_neg h]
  · rw [mzml2isa.study_assay_line, if_pos ⟨h1, h2⟩, if_pos h3]
  · rw [mzml2isa.study_assay_line, if_pos ⟨h1, h2⟩, if_neg h3, hc1]

/-- Witness for C5: two written assays expand the "Study Assay File Name"
line into the two actual file names, in order. -/
theorem C5_witness :
    mzml2isa.study_assay_line "Study Assay File Name\t\"x\"\n" ["a1.txt", "a2.txt"] =
      .ok "Study Assay File Name\t\"a1.txt\"\t\"a2.txt\"\n" := by
  have h := (C5_amended "Study Assay File Name\t\"x\"\n" ["a1.txt", "a2.txt"]).2.1
    rfl (by decide) rfl
  exact h

/-- A name absent from the list makes its findIdx? lookup fail. -/
theorem findIdx?_eq_none_of_not_mem {hs : List String} {x : String} (h : x ∉ hs) :
    hs.findIdx? (fun y => decide (y = x)) = none := by
  rw [List.findIdx?_eq_none_iff]
  intro y hy
  simp only [decide_eq_false_iff_not]
  intro he
  exact absurd (he ▸ hy) h

/-- A successful legacy row update requires the raw-data column variable to
have been assigned. -/
theorem legacy_update_raw_none {cols : isa_mzML.ColIdx}
    (hraw : cols.raw_data_idx = none) (row : List String)
    (f : isa_mzML.LegacyRecord) : ∀ r', isa_mzML.legacy_update cols row f ≠ .ok r' := by
  intro r' h
  unfold isa_mzML.legacy_update at h
  iterate 28 obtain ⟨_, _, h⟩ := except_bind_ok h
  obtain ⟨i12, e29, _⟩ := except_bind_ok h
  rw [hraw] at e29
  simp [isa_mzML.useIdx] at e29

/-- A missing expected column makes the whole legacy patch fail before any
data row is produced, for every non-empty record list. -/
theorem isa_assay_file_err {hl sr : List String} {ml : List isa_mzML.LegacyRecord} {mpi : Nat}
    (hmp : pyIndex sr "Mass spectrometry" = .ok mpi)
    (hraw : (isa_mzML.locate_columns (hl.drop (mpi + 1)) (mpi + 1)).raw_data_idx = none)
    (hne : ml ≠ []) :
    ∃ e, isa_mzML.isa_assay_file hl sr ml = .error e := by
  cases hr : isa_mzML.isa_assay_file hl sr ml with
  | error e => exact ⟨e, rfl⟩
  | ok out =>
    exfalso
    unfold isa_mzML.isa_assay_file at hr
    obtain ⟨mpi', hmp', hr⟩ := except_bind_ok hr
    rw [hmp] at hmp'
    rw [Except.ok.injEq] at hmp'
    subst hmp'
    cases ml with
    | nil => exact hne rfl
    | cons f fs =>
      simp only [List.foldlM_cons] at hr
      obtain ⟨st1, hst1, hr⟩ := except_bind_ok hr
      obtain ⟨a1, ha1, _⟩ := except_bind_ok hst1
      obtain ⟨r1, hr1, _⟩ := except_bind_ok ha1
      exact legacy_update_raw_none hraw sr f r1 hr1

/-- C4 (amended): when an expected assay column is absent, the legacy updater
reports the lookup failure and SKIPS the lookups of every later column (the
single try-block aborts), rather than still locating and filling them: (i)
with "Parameter Value[Scan m/z range]" absent, only the Scan-polarity index
is located and every later index stays unassigned; (ii) in general, once one
index is unassigned every later one is too; (iii) with any record present,
the row update then stops at the first unassigned index with a NameError, so
the patch produces no output at all (isa_assay_file.__init__,
src/isa_mzML.py lines 302-357). -/
theorem C4_amended :
    (∀ (hs : List String) (adj : Nat), "Parameter Value[Scan m/z range]" ∉ hs →
      (isa_mzML.locate_columns hs adj).polarity_idx =
        (hs.findIdx? (fun y => decide (y = "Parameter Value[Scan polarity]"))).map (· + adj) ∧
      (isa_mzML.locate_columns hs adj).mzrange_idx = none ∧
      (isa_mzML.locate_columns hs adj).instrument_idx = none ∧
      (isa_mzML.locate_columns hs adj).ionsource_idx = none ∧
      (isa_mzML.locate_columns hs adj).detector_idx = none ∧
      (isa_mzML.locate_columns hs adj).raw_data_idx = none)
    ∧ (∀ (hs : List String) (adj : Nat),
        ((isa_mzML.locate_columns hs adj).polarity_idx = none →
          (isa_mzML.locate_columns hs adj).mzrange_idx = none) ∧
        ((isa_mzML.locate_columns hs adj).mzrange_idx = none →
          (isa_mzML.locate_columns hs adj).instrument_idx = none) ∧
        ((isa_mzML.locate_columns hs adj).instrument_idx = none →
          (isa_mzML.locate_columns hs adj).ionsource_idx = none) ∧
        ((isa_mzML.locate_columns hs adj).ionsource_idx = none →
          (isa_mzML.locate_columns hs adj).detector_idx = none) ∧
        ((isa_mzML.locate_columns hs adj).detector_idx = none →
          (isa_mzML.locate_columns hs adj).raw_data_idx = none))
    ∧ (∀ (hl sr : List String) (ml : List isa_mzML.LegacyRecord) (mpi : Nat),
        pyIndex sr "Mass spectrometry" = .ok mpi →
        (isa_mzML.locate_columns (hl.drop (mpi + 1)) (mpi + 1)).raw_data_idx = none →
        ml ≠ [] →
        ∃ e, isa_mzML.isa_assay_file hl sr ml = .error e) := by
  refine ⟨fun hs adj hmz => ?_, fun hs adj => ?_, fun hl sr ml mpi h1 h2 h3 => isa_assay_file_err h1 h2 h3⟩
  · have hnone := findIdx?_eq_none_of_not_mem hmz
    unfold isa_mzML.locate_columns
    cases h0 : hs.findIdx? (fun y => decide (y = "Parameter Value[Scan polarity]")) <;>
      simp [h0, hnone]
  · unfold isa_mzML.locate_columns
    cases h0 : hs.findIdx? (fun y => decide (y = "Parameter Value[Scan polarity]")) <;>
    cases h1 : hs.findIdx? (fun y => decide (y = "Parameter Value[Scan m/z range]")) <;>
    cases h2 : hs.findIdx? (fun y => decide (y = "Parameter Value[Instrument]")) <;>
    cases h3 : hs.findIdx? (fun y => decide (y = "Parameter Value[Ion source]")) <;>
    cases h4 : hs.findIdx? (fun y => decide (y = "Parameter Value[Mass analyzer]")) <;>
    cases h5 : hs.findIdx? (fun y => decide (y = "Raw Spectral Data File")) <;>
      simp [h0, h1, h2, h3, h4, h5]

/-- Witness for C4's amended theorem: a header missing only the final
"Raw Spectral Data File" column still aborts the whole patch. -/
theorem C4_witness :
    (isa_mzML.isa_assay_file legHeadersW legStandard [legRecord]).toOption = none := by
  obtain ⟨e, he⟩ := C4_amended.2.2 legHeadersW legStandard [legRecord] 1 rfl rfl (by decide)
  rw [he]
  rfl

/-- Appending different suffixes to the same string gives different strings. -/
theorem string_append_ne_of_ne (s : String) {a b : String} (h : a ≠ b) :
    s ++ a ≠ s ++ b := by
  intro he
  apply h
  have hd : (s ++ a).data = (s ++ b).data := by rw [he]
  rw [String.data_append, String.data_append] at hd
  exact String.ext (List.append_cancel_left hd)

/-- C3 (amended): for two matching elements with a common tag under a single
rule, the revised extractor (src/mzml_2_isa/mzml.py) keys the field by the
raw tag for attribute rules and by the display name otherwise, and buckets
BOTH matches of any multiple-allowed rule (attribute or not) into one
entry_list field keyed by the running counter; the legacy extractor
(src/isa_mzML.py) keys attribute+multiple matches by tag plus counter,
attribute-only by tag, multiple-only by display name plus counter (separate
plain fields, no entry_list), and otherwise by display name (with repeated
non-multiple matches overwriting the same field). -/
theorem C3_amended (desc : String → List String) (sl : List Software)
    (e1 e2 : XElem) (acc : String) (info : TermInfo)
    (h1 : (desc acc).contains e1.accession = true)
    (h2 : (desc acc).contains e2.accession = true)
    (htag : e2.tag = e1.tag)
    (hsoft : info.soft = false)
    (hv1 : info.value = true → e1.value.isSome)
    (hv2 : info.value = true → e2.value.isSome) :
    mzml_2_isa.cvParam_loop desc sl [e1, e2] [(acc, info)] =
      .ok (if info.plus1 then
             [((if info.attrib then e1.tag else info.name),
               .entry_list
                 [(1, ⟨some e1.accession, some e1.name, if info.value then e1.value else none⟩),
                  (2, ⟨some e2.accession, some e2.name, if info.value then e2.value else none⟩)])]
           else
             [((if info.attrib then e1.tag else info.name),
               .dict ⟨some e2.accession, some e2.name, if info.value then e2.value else none⟩)])
    ∧ isa_mzML.cvParam_loop desc sl [e1, e2] [(acc, info)] =
      .ok (if info.attrib && info.plus1 then
             [(e1.tag ++ "1", .dict ⟨some e1.accession, some e1.name,
                 if info.value then e1.value else none⟩),
              (e1.tag ++ "2", .dict ⟨some e2.accession, some e2.name,
                 if info.value then e2.value else none⟩)]
           else if info.attrib then
             [(e1.tag, .dict ⟨some e2.accession, some e2.name,
                 if info.value then e2.value else none⟩)]
           else if info.plus1 then
             [(info.name ++ "1", .dict ⟨some e1.accession, some e1.name,
                 if info.value then e1.value else none⟩),
              (info.name ++ "2", .dict ⟨some e2.accession, some e2.name,
                 if info.value then e2.value else none⟩)]
           else
             [(info.name, .dict ⟨some e2.accession, some e2.name,
                 if info.value then e2.value else none⟩)]) := by
  obtain ⟨attr, nm, p1, vb, sb⟩ := info
  simp only at hsoft
  subst hsoft
  have m1 : e1.accession ∈ desc acc := by simpa using h1
  have m2 : e2.accession ∈ desc acc := by simpa using h2
  cases vb with
  | true =>
    obtain ⟨v1, hev1⟩ := Option.isSome_iff_exists.mp (hv1 rfl)
    obtain ⟨v2, hev2⟩ := Option.isSome_iff_exists.mp (hv2 rfl)
    cases attr <;> cases p1 <;>
      simp [mzml_2_isa.cvParam_loop, mzml_2_isa.cvParam_rule,
        isa_mzML.cvParam_loop, isa_mzML.cvParam_rule, mkEntry, odFind, odAssign,
        m1, m2, htag, hev1, hev2, List.foldlM_cons, List.foldlM_nil,
        Bind.bind, Except.bind, pure, Except.pure,
        show toString (1 : Nat) = "1" from rfl, show toString (2 : Nat) = "2" from rfl] <;>
      (try exact string_append_ne_of_ne _ (by decide))
  | false =>
    cases attr <;> cases p1 <;>
      simp [mzml_2_isa.cvParam_loop, mzml_2_isa.cvParam_rule,
        isa_mzML.cvParam_loop, isa_mzML.cvParam_rule, mkEntry, odFind, odAssign,
        m1, m2, htag, List.foldlM_cons, List.foldlM_nil,
        Bind.bind, Except.bind, pure, Except.pure,
        show toString (1 : Nat) = "1" from rfl, show toString (2 : Nat) = "2" from rfl] <;>
      (try exact string_append_ne_of_ne _ (by decide))

/-- Witness for C3's amended theorem: the attribute+multiple rule MS:1000482
on two matching value-bearing elements: the revised extractor buckets both
under the raw tag as one entry_list; the legacy extractor produces two
counter-suffixed plain fields. -/
theorem C3_witness :
    mzml_2_isa.cvParam_loop descEx []
        [⟨"cvParam", "MS:9482", "sn1", some "v1", none⟩,
         ⟨"cvParam", "MS:9482", "sn2", some "v2", none⟩]
        [("MS:1000482", ⟨true, "source_attribute", true, true, false⟩)] =
      .ok [("cvParam",
            .entry_list [(1, ⟨some "MS:9482", some "sn1", some "v1"⟩),
                         (2, ⟨some "MS:9482", some "sn2", some "v2"⟩)])] ∧
    isa_mzML.cvParam_loop descEx []
        [⟨"cvParam", "MS:9482", "sn1", some "v1", none⟩,
         ⟨"cvParam", "MS:9482", "sn2", some "v2", none⟩]
        [("MS:1000482", ⟨true, "source_attribute", true, true, false⟩)] =
      .ok [("cvParam1", .dict ⟨some "MS:9482", some "sn1", some "v1"⟩),
           ("cvParam2", .dict ⟨some "MS:9482", some "sn2", some "v2"⟩)] := by
  have h := C3_amended descEx []
    ⟨"cvParam", "MS:9482", "sn1", some "v1", none⟩
    ⟨"cvParam", "MS:9482", "sn2", some "v2", none⟩
    "MS:1000482" ⟨true, "source_attribute", true, true, false⟩
    rfl rfl rfl rfl (fun _ => rfl) (fun _ => rfl)
  exact ⟨by simpa using h.1, by simpa using h.2⟩

/-- Reading an in-bounds cell succeeds and returns the cell. -/
theorem pyGetCell_ok {r : List String} {i : Nat} (h : i < r.length) :
    pyGetCell r i = .ok (r.getD i "") := by
  unfold pyGetCell
  cases hq : r.get? i with
  | none =>
    rw [List.get?_eq_none] at hq
    omega
  | some v =>
    have : r.getD i "" = v := by
      rw [List.getD_eq_get?, hq]
      rfl
    rw [this]

/-- A column strictly inside every row evaluates to the list of its cells. -/
theorem column_at_ok {rows : List (List String)} {i : Nat}
    (h : ∀ r ∈ rows, i < r.length) :
    mzml2isa.column_at rows i = .ok (rows.map (fun r => r.getD i "")) := by
  induction rows with
  | nil => rfl
  | cons r rs ih =>
    rw [mzml2isa.column_at] at ih ⊢
    rw [List.mapM_cons, pyGetCell_ok (h r (by simp)), ih (fun r hr => h r (by simp [hr]))]
    rfl

/-- A full column of empty cells is exactly an all-empty check. -/
theorem count_empty_eq_length {rows : List (List String)} {i : Nat} :
    ((rows.map (fun r => r.getD i "")).count "" = rows.length) ↔
      (∀ r ∈ rows, r.getD i "" = "") := by
  rw [show rows.length = (rows.map (fun r => r.getD i "")).length by simp]
  rw [List.count_eq_length]
  constructor
  · intro h r hr
    exact (h (r.getD i "") (List.mem_map_of_mem _ hr)).symm
  · intro h b hb
    obtain ⟨r, hr, hrb⟩ := List.mem_map.mp hb
    rw [← hrb, h r hr]

/-- Bind of a success in the Except monad reduces. -/
theorem ok_bind {ε α β : Type} (a : α) (f : α → Except ε β) :
    ((Except.ok a : Except ε α) >>= f) = f a := rfl

/-- The delete-column fold of remove_blank_columns computes `delete_cols_spec`. -/
theorem fold_delete (idxs : List Nat) (rows : List (List String)) (acc : List Nat)
    (h : ∀ i ∈ idxs, ∀ r ∈ rows, i < r.length) :
    (idxs.foldlM
      (fun acc i => (mzml2isa.column_at rows i) >>= fun column =>
        .ok (if column.count "" = rows.length then acc ++ [i] else acc))
      acc) =
      .ok (acc ++ idxs.filter (fun i => rows.all (fun r => r.getD i "" == ""))) := by
  induction idxs generalizing acc with
  | nil =>
    rw [List.foldlM_nil]
    simp only [List.filter_nil, List.append_nil]
    rfl
  | cons i is ih =>
    rw [List.foldlM_cons, column_at_ok (h i (by simp)), ok_bind, List.filter_cons]
    by_cases hc : ∀ r ∈ rows, r.getD i "" = ""
    · have h1 : (rows.map (fun r => r.getD i "")).count "" = rows.length :=
        count_empty_eq_length.mpr hc
      have h2 : (rows.all (fun r => r.getD i "" == "")) = true := by
        simp only [List.all_eq_true, beq_iff_eq]
        exact hc
      rw [if_pos h1, h2, if_pos rfl, ok_bind, ih (acc ++ [i]) (fun j hj => h j (by simp [hj]))]
      simp
    · have h1 : ¬ ((rows.map (fun r => r.getD i "")).count "" = rows.length) := by
        rw [count_empty_eq_length]
        exact hc
      have h2 : (rows.all (fun r => r.getD i "" == "")) = false := by
        rw [Bool.eq_false_iff]
        intro hall
        apply hc
        simp only [List.all_eq_true, beq_iff_eq] at hall
        exact hall
      rw [if_neg h1, h2, ok_bind]
      simp only [Bool.false_eq_true, if_false]
      exact ih acc (fun j hj => h j (by simp [hj]))

/-- C8: a column is deleted from the header and from every row exactly when
it lies strictly inside the MS block (strictly after the "Mass spectrometry"
boundary at index `start`), is not among the block's last 3 columns, and is
the empty string in every row; a column with at least one non-empty cell is
kept (ISA_Tab.remove_blank_columns, src/mzml2isa/isa.py lines 372-398,
invoked at line 292; the hypothesis that some row is non-empty at `start`
always holds in that invocation because the boundary cell of every built row
holds the literal "Mass spectrometry"). -/
theorem C8_column_pruning (start stop : Nat) (full_row : List (List String))
    (headers_row : List String)
    (hlen : ∀ r ∈ full_row, stop ≤ r.length)
    (hstart : ∃ r ∈ full_row, r.getD start "" ≠ "") :
    mzml2isa.remove_blank_columns start stop full_row headers_row =
      .ok (removeIdxs headers_row (delete_cols_spec start stop full_row),
           full_row.map (fun row => removeIdxs row (delete_cols_spec start stop full_row))) ∧
    ∀ i, i ∈ delete_cols_spec start stop full_row ↔
      (start < i ∧ i + 3 < stop ∧ ∀ r ∈ full_row, r.getD i "" = "") := by
  constructor
  · unfold mzml2isa.remove_blank_columns
    rw [fold_delete _ _ _ ?_, ok_bind]
    · rw [List.nil_append]
      rfl
    · intro i hi r hr
      rw [List.mem_range'_1] at hi
      have := hlen r hr
      omega
  · intro i
    unfold delete_cols_spec
    rw [List.mem_filter, List.mem_range'_1]
    constructor
    · rintro ⟨⟨hlo, hhi⟩, hall⟩
      simp only [List.all_eq_true, beq_iff_eq] at hall
      have hi3 : i + 3 < stop := by omega
      rcases Nat.lt_or_ge start i with hgt | hge
      · exact ⟨hgt, hi3, hall⟩
      · exfalso
        have : i = start := by omega
        subst this
        obtain ⟨r, hr, hne⟩ := hstart
        exact hne (hall r hr)
    · rintro ⟨hlo, hhi, hall⟩
      refine ⟨⟨by omega, by omega⟩, ?_⟩
      simp only [List.all_eq_true, beq_iff_eq]
      exact hall

/-- Witness for C8: on a single-row table with MS boundary at index 1 and
block end at index 8, exactly the blank interior columns 2, 3, 4 are pruned
(5, 6, 7 being the block's reserved last 3), from header and row alike. -/
theorem C8_witness :
    mzml2isa.remove_blank_columns 1 8
      [["A", "M", "", "", "", "q", "r", "s"]]
      ["h0", "h1", "h2", "h3", "h4", "h5", "h6", "h7"] =
    .ok (["h0", "h1", "h5", "h6", "h7"], [["A", "M", "q", "r", "s"]]) := by
  have h := (C8_column_pruning 1 8 [["A", "M", "", "", "", "q", "r", "s"]]
    ["h0", "h1", "h2", "h3", "h4", "h5", "h6", "h7"]
    (by intro r hr; simp at hr; subst hr; rfl)
    ⟨["A", "M", "", "", "", "q", "r", "s"], by simp, by decide⟩).1
  exact h

/-- Inversion of a successful run of create_assay into its stages. -/
theorem create_assay_ok_inv {hdr std : List String} {ml : List Record} {sep : Bool}
    {nm : String} {out : mzml2isa.AssayOutput}
    (h : mzml2isa.create_assay hdr std ml sep nm = .ok out) :
    ∃ sni mpi mei pidx res,
      pyIndex hdr "Sample Name" = .ok sni ∧
      pyIndex std "Mass spectrometry" = .ok mpi ∧
      pyIndex std "Metabolite identification" = .ok mei ∧
      pyIndex hdr "Parameter Value[Scan polarity]" = .ok pidx ∧
      (ml.foldlM
        (mzml2isa.assay_record_step sni
          ((hdr.drop (mpi + 1)).take (mei - (mpi + 1))) (std.drop mei))
        (⟨std.take (mpi + 1),
          List.replicate ((hdr.drop (mpi + 1)).take (mei - (mpi + 1))).length "", []⟩, [])) = .ok res ∧
      mzml2isa.remove_blank_columns mpi mei res.2 hdr = .ok (out.headers_pruned, out.rows_pruned) ∧
      mzml2isa.write_assays out.headers_pruned out.rows_pruned pidx sep nm =
        .ok (out.files, out.written_assays) ∧
      out.sample_names = res.1.sample_names ∧ out.built_rows = res.2 := by
  unfold mzml2isa.create_assay at h
  obtain ⟨sni, h1, h⟩ := except_bind_ok h
  obtain ⟨mpi, h2, h⟩ := except_bind_ok h
  obtain ⟨mei, h3, h⟩ := except_bind_ok h
  obtain ⟨pidx, h4, h⟩ := except_bind_ok h
  obtain ⟨res, h5, h⟩ := except_bind_ok h
  obtain ⟨hr, h6, h⟩ := except_bind_ok h
  obtain ⟨fw, h7, h⟩ := except_bind_ok h
  rw [Except.ok.injEq] at h
  subst h
  exact ⟨sni, mpi, mei, pidx, res, h1, h2, h3, h4, h5, h6, h7, rfl, rfl⟩

/-- A successful update_row preserves the row length. -/
theorem update_row_length {row : List String} {main : Nat} {mv : CVDict} {r' : List String}
    (h : mzml2isa.update_row row main mv = .ok r') : r'.length = row.length := by
  rcases mv with ⟨a, n, v⟩
  unfold mzml2isa.update_row at h
  cases n with
  | none =>
    cases a with
    | none =>
      cases v with
      | none =>
        simp only [ok_bind] at h
        cases h
        rfl
      | some vv =>
        simp only [ok_bind] at h
        exact pySetCell_length h
    | some av =>
      simp only [ok_bind] at h
      obtain ⟨rm2, hrm2, h⟩ := except_bind_ok h
      obtain ⟨r1, hr1, hrm2⟩ := except_bind_ok hrm2
      obtain ⟨r2, hr2, hrm2⟩ := except_bind_ok hrm2
      rw [Except.ok.injEq] at hrm2
      subst hrm2
      cases v with
      | none =>
        cases h
        rw [pySetCell_length hr2, pySetCell_length hr1]
      | some vv =>
        rw [pySetCell_length h, pySetCell_length hr2, pySetCell_length hr1]
  | some nv =>
    obtain ⟨rm1, hrm1, h⟩ := except_bind_ok h
    obtain ⟨r0, hr0, hrm1⟩ := except_bind_ok hrm1
    rw [Except.ok.injEq] at hrm1
    subst hrm1
    cases a with
    | none =>
      cases v with
      | none =>
        simp only [ok_bind] at h
        cases h
        exact pySetCell_length hr0
      | some vv =>
        simp only [ok_bind] at h
        rw [pySetCell_length h, pySetCell_length hr0]
    | some av =>
      simp only [ok_bind] at h
      obtain ⟨rm2, hrm2, h⟩ := except_bind_ok h
      obtain ⟨r1, hr1, hrm2⟩ := except_bind_ok hrm2
      obtain ⟨r2, hr2, hrm2⟩ := except_bind_ok hrm2
      rw [Except.ok.injEq] at hrm2
      subst hrm2
      cases v with
      | none =>
        cases h
        rw [pySetCell_length hr2, pySetCell_length hr1, pySetCell_length hr0]
      | some vv =>
        rw [pySetCell_length h, pySetCell_length hr2, pySetCell_length hr1,
          pySetCell_length hr0]

/-- A successful consume_entries preserves the row length. -/
theorem consume_entries_length {es : List (Nat × CVDict)} :
    ∀ {row : List String} {indices : List Nat} {r' : List String},
    mzml2isa.consume_entries row indices es = .ok r' → r'.length = row.length := by
  induction es with
  | nil =>
    intro row indices r' h
    rw [mzml2isa.consume_entries] at h
    cases h
    rfl
  | cons e rest ih =>
    intro row indices r' h
    rw [mzml2isa.consume_entries] at h
    cases hl : indices.getLast? with
    | none =>
      rw [hl] at h
      exact ih h
    | some main =>
      rw [hl] at h
      obtain ⟨r1, hr1, h⟩ := except_bind_ok h
      rw [ih h, update_row_length hr1]

/-- A successful sample_name_step preserves the pre-row length and does not
touch the MS-block buffer. -/
theorem sample_name_step_inv {sni : Nat} {st st' : mzml2isa.GenState} {key : String}
    {value : MetaValue} (h : mzml2isa.sample_name_step sni st key value = .ok st') :
    st'.pre_row.length = st.pre_row.length ∧ st'.new_mass_row = st.new_mass_row := by
  unfold mzml2isa.sample_name_step at h
  split_ifs at h with hk
  · split at h
    · split at h
      · obtain ⟨p, hp, h⟩ := except_bind_ok h
        cases h
        exact ⟨pySetCell_length hp, rfl⟩
      · simp at h
    · simp at h
  · cases h
    exact ⟨rfl, rfl⟩

/-- A successful mass_step preserves the pre-row and the MS-buffer length and
the sample names. -/
theorem mass_step_inv {mh : List String} {st st' : mzml2isa.GenState} {key : String}
    {value : MetaValue} (h : mzml2isa.mass_step mh st key value = .ok st') :
    st'.pre_row = st.pre_row ∧ st'.new_mass_row.length = st.new_mass_row.length ∧
    st'.sample_names = st.sample_names := by
  unfold mzml2isa.mass_step at h
  cases value with
  | entry_list es =>
    obtain ⟨nmr, hnm, h⟩ := except_bind_ok h
    cases h
    exact ⟨rfl, consume_entries_length hnm, rfl⟩
  | dict d =>
    cases hf : mh.findIdx? (fun hh => decide (hh = key)) with
    | none =>
      rw [hf] at h
      cases h
      exact ⟨rfl, rfl, rfl⟩
    | some main =>
      rw [hf] at h
      obtain ⟨nmr, hnm, h⟩ := except_bind_ok h
      cases h
      exact ⟨rfl, update_row_length hnm, rfl⟩

/-- A successful assay_field_step preserves the pre-row length and the
MS-buffer length. -/
theorem assay_field_step_len {sni : Nat} {mh : List String} {st st' : mzml2isa.GenState}
    {kv : String × MetaValue} (h : mzml2isa.assay_field_step sni mh st kv = .ok st') :
    st'.pre_row.length = st.pre_row.length ∧
    st'.new_mass_row.length = st.new_mass_row.length := by
  unfold mzml2isa.assay_field_step at h
  obtain ⟨st1, h1, h2⟩ := except_bind_ok h
  obtain ⟨hp1, hn1⟩ := sample_name_step_inv h1
  obtain ⟨hp2, hn2, _⟩ := mass_step_inv h2
  rw [hp2, hn2, hn1]
  exact ⟨hp1, rfl⟩

/-- The field fold of one record preserves the pre-row length and the
MS-buffer length. -/
theorem record_fold_len {rec : Record} :
    ∀ {sni : Nat} {mh : List String} {st st' : mzml2isa.GenState},
    rec.foldlM (mzml2isa.assay_field_step sni mh) st = .ok st' →
    st'.pre_row.length = st.pre_row.length ∧
    st'.new_mass_row.length = st.new_mass_row.length := by
  induction rec with
  | nil =>
    intro sni mh st st' h
    rw [List.foldlM_nil] at h
    cases h
    exact ⟨rfl, rfl⟩
  | cons kv rest ih =>
    intro sni mh st st' h
    rw [List.foldlM_cons] at h
    obtain ⟨st1, h1, h2⟩ := except_bind_ok h
    obtain ⟨hp1, hn1⟩ := assay_field_step_len h1
    obtain ⟨hp2, hn2⟩ := ih h2
    exact ⟨hp2.trans hp1, hn2.trans hn1⟩

/-- The record fold: every built row has length pre + mass + post, and the
final state keeps the initial segment lengths. -/
theorem build_rows_len {ml : List Record} :
    ∀ {sni : Nat} {mh post : List String} {acc : mzml2isa.GenState × List (List String)}
      {res : mzml2isa.GenState × List (List String)},
    ml.foldlM (mzml2isa.assay_record_step sni mh post) acc = .ok res →
    (∀ r ∈ res.2, r ∈ acc.2 ∨
      r.length = acc.1.pre_row.length + acc.1.new_mass_row.length + post.length) ∧
    res.1.pre_row.length = acc.1.pre_row.length ∧
    res.1.new_mass_row.length = acc.1.new_mass_row.length := by
  induction ml with
  | nil =>
    intro sni mh post acc res h
    rw [List.foldlM_nil] at h
    cases h
    exact ⟨fun r hr => Or.inl hr, rfl, rfl⟩
  | cons rec rest ih =>
    intro sni mh post acc res h
    rw [List.foldlM_cons] at h
    obtain ⟨st1, h1, h2⟩ := except_bind_ok h
    unfold mzml2isa.assay_record_step at h1
    obtain ⟨st, hst, h1⟩ := except_bind_ok h1
    rw [Except.ok.injEq] at h1
    subst h1
    obtain ⟨hp, hn⟩ := record_fold_len hst
    obtain ⟨hrows, hp2, hn2⟩ := ih h2
    refine ⟨?_, by simpa using hp2.trans hp, by simpa using hn2.trans hn⟩
    intro r hr
    rcases hrows r hr with hin | hlen
    · rcases List.mem_append.mp hin with hin | hin
      · exact Or.inl hin
      · right
        rw [List.mem_singleton] at hin
        subst hin
        simp only [List.length_append, hp, hn]
        try omega
    · right
      rw [hlen]
      simp only [List.length_append, hp, hn]
      try omega

/-- mutate_group sets the data-transformation cell of exactly the rows whose
polarity cell matches, and emits the written group in order. -/
theorem mutate_group_eq {pidx : Nat} {p : String} {dtI : Int} (hdt0 : 0 ≤ dtI) :
    ∀ (rows : List (List String)), (∀ r ∈ rows, dtI < r.length) →
    mzml2isa.mutate_group rows pidx p dtI = .ok
      (rows.map (fun r => if r.get? pidx = some p then
          r.set dtI.toNat "Data transformation" else r),
       (rows.filter (fun r => decide (r.get? pidx = some p))).map
         (fun r => r.set dtI.toNat "Data transformation")) := by
  intro rows
  induction rows with
  | nil => intro _; rfl
  | cons r rest ih =>
    intro hb
    rw [mzml2isa.mutate_group]
    rw [List.map_cons, List.filter_cons]
    by_cases hc : r.get? pidx = some p
    · rw [if_pos hc]
      rw [pySetCell_nonneg hdt0 (by
        have := hb r (by simp)
        simpa using this), ok_bind]
      rw [ih (fun r hr => hb r (by simp [hr])), ok_bind]
      simp only [hc, if_pos rfl, decide_eq_true_eq, if_true, List.map_cons]
    · rw [if_neg hc]
      rw [ih (fun r hr => hb r (by simp [hr])), ok_bind]
      simp only [hc, if_neg hc, decide_eq_true_eq, if_false, List.map_cons]

/-- Setting a cell other than the polarity cell does not change which rows a
polarity filter selects, nor the mutated contents. -/
theorem filter_map_mutate {pidx j : Nat} (hne : j ≠ pidx) (p q v : String) :
    ∀ (rows : List (List String)),
    ((rows.map (fun r => if r.get? pidx = some p then r.set j v else r)).filter
        (fun r => decide (r.get? pidx = some q))).map (fun r => r.set j v) =
      (rows.filter (fun r => decide (r.get? pidx = some q))).map (fun r => r.set j v) := by
  intro rows
  induction rows with
  | nil => rfl
  | cons r rest ih =>
    rw [List.map_cons, List.filter_cons, List.filter_cons]
    have hget : (if r.get? pidx = some p then r.set j v else r).get? pidx = r.get? pidx := by
      split_ifs with hc
      · exact List.get?_set_ne v r hne
      · rfl
    rw [hget]
    by_cases hq : r.get? pidx = some q
    · have hqq : decide (r.get? pidx = some q) = true := by rw [decide_eq_true_eq]; exact hq
      rw [hqq, if_pos rfl, if_pos rfl, List.map_cons, List.map_cons, ih]
      congr 1
      split_ifs with hc
      · rw [List.set_set]
      · rfl
    · have hqq : decide (r.get? pidx = some q) = false := by rw [decide_eq_false_iff_not]; exact hq
      rw [hqq]
      simp only [Bool.false_eq_true, if_false]
      exact ih

/-- The row-set application of mapM over pySetCell. -/
theorem mapM_pySetCell {dtI : Int} {v : String} (hdt0 : 0 ≤ dtI) :
    ∀ (rows : List (List String)), (∀ r ∈ rows, dtI < r.length) →
    rows.mapM (fun row => pySetCell row dtI v) = .ok (rows.map (fun r => r.set dtI.toNat v)) := by
  intro rows
  induction rows with
  | nil => intro _; rfl
  | cons r rest ih =>
    intro hb
    rw [List.mapM_cons, pySetCell_nonneg hdt0 (hb r (by simp)), ok_bind,
      ih (fun r hr => hb r (by simp [hr])), ok_bind]
    rfl

/-- pyIndex succeeds exactly as findIdx? does. -/
theorem pyIndex_eq_ok {l : List String} {x : String} {i : Nat}
    (h : l.findIdx? (fun y => decide (y = x)) = some i) : pyIndex l x = .ok i := by
  unfold pyIndex
  rw [h]

/-- The single-file branch writes one file holding every row with the
data-transformation cell restored. -/
theorem write_single_eq {hp : List String} {dsd : Nat}
    (hdsd : hp.findIdx? (fun y => decide (y = "Derived Spectral Data File")) = some dsd)
    (h2 : 2 ≤ dsd) (rows : List (List String)) (nm : String)
    (hb : ∀ r ∈ rows, dsd - 2 < r.length) :
    mzml2isa.write_single hp rows nm =
      .ok ([(mzml2isa.assay_file_name nm,
             rows.map (fun r => r.set (dsd - 2) "Data transformation"))],
           [mzml2isa.assay_file_name nm]) := by
  unfold mzml2isa.write_single
  rw [pyIndex_eq_ok hdsd, ok_bind]
  have h0 : (0 : Int) ≤ (dsd : Int) - 2 := by omega
  rw [mapM_pySetCell h0 rows (fun r hr => by have := hb r hr; omega), ok_bind]
  have ht : ((dsd : Int) - 2).toNat = dsd - 2 := by omega
  rw [ht]

/-- The split branch writes, per polarity value in order, one file holding
exactly the matching rows with the data-transformation cell restored. -/
theorem write_split_eq {hp : List String} {pidx : Nat} {nm : String} {dsd : Nat}
    (hdsd : hp.findIdx? (fun y => decide (y = "Derived Spectral Data File")) = some dsd)
    (h2 : 2 ≤ dsd) (hne : dsd - 2 ≠ pidx) :
    ∀ (ps : List String) (rows : List (List String))
      (files0 : List (String × List (List String))) (written0 : List String),
      (∀ r ∈ rows, dsd - 2 < r.length) →
      mzml2isa.write_split hp pidx nm ps (files0, written0, rows) =
        .ok (files0 ++ ps.map (fun p => (mzml2isa.assay_polar_file_name nm p,
               (rows.filter (fun r => decide (r.get? pidx = some p))).map
                 (fun r => r.set (dsd - 2) "Data transformation"))),
             written0 ++ ps.map (mzml2isa.assay_polar_file_name nm)) := by
  intro ps
  induction ps with
  | nil =>
    intro rows files0 written0 hb
    rw [mzml2isa.write_split]
    simp
  | cons p rest ih =>
    intro rows files0 written0 hb
    rw [mzml2isa.write_split, pyIndex_eq_ok hdsd, ok_bind]
    have h0 : (0 : Int) ≤ (dsd : Int) - 2 := by omega
    have ht : ((dsd : Int) - 2).toNat = dsd - 2 := by omega
    rw [mutate_group_eq h0 rows (fun r hr => by have := hb r hr; omega), ok_bind, ht]
    have hb' : ∀ r ∈ rows.map (fun r => if r.get? pidx = some p then
        r.set (dsd - 2) "Data transformation" else r), dsd - 2 < r.length := by
      intro r hr
      obtain ⟨r0, hr0, hmut⟩ := List.mem_map.mp hr
      subst hmut
      split_ifs with hc
      · rw [List.length_set]
        exact hb r0 hr0
      · exact hb r0 hr0
    rw [ih (rows.map (fun r => if r.get? pidx = some p then
          r.set (dsd - 2) "Data transformation" else r)) _ _ hb']
    have hmap : (rest.map (fun q => (mzml2isa.assay_polar_file_name nm q,
        ((rows.map (fun r => if r.get? pidx = some p then
            r.set (dsd - 2) "Data transformation" else r)).filter
          (fun r => decide (r.get? pidx = some q))).map
            (fun r => r.set (dsd - 2) "Data transformation"))))
        = rest.map (fun q => (mzml2isa.assay_polar_file_name nm q,
            (rows.filter (fun r => decide (r.get? pidx = some q))).map
              (fun r => r.set (dsd - 2) "Data transformation"))) := by
      apply List.map_congr_left
      intro q hq
      rw [Prod.mk.injEq]
      exact ⟨rfl, filter_map_mutate hne p q "Data transformation" rows⟩
    rw [hmap]
    simp [List.append_assoc]

/-- The assay-writing stage characterized in closed form: one file with all
rows when there is one distinct polarity value or splitting is disabled, and
otherwise one file per distinct value with exactly the matching rows. -/
theorem write_assays_eq {hp : List String} {pidx : Nat} {sep : Bool} {nm : String} {dsd : Nat}
    (hdsd : hp.findIdx? (fun y => decide (y = "Derived Spectral Data File")) = some dsd)
    (h2 : 2 ≤ dsd) (hne : dsd - 2 ≠ pidx)
    (rows : List (List String))
    (hbp : ∀ r ∈ rows, pidx < r.length)
    (hbd : ∀ r ∈ rows, dsd - 2 < r.length) :
    mzml2isa.write_assays hp rows pidx sep nm =
      if (pySet (rows.map (fun r => r.getD pidx ""))).length = 1 ∨ sep = false then
        .ok ([(mzml2isa.assay_file_name nm,
               rows.map (fun r => r.set (dsd - 2) "Data transformation"))],
             [mzml2isa.assay_file_name nm])
      else
        .ok ((pySet (rows.map (fun r => r.getD pidx ""))).map
               (fun p => (mzml2isa.assay_polar_file_name nm p,
                 (rows.filter (fun r => decide (r.get? pidx = some p))).map
                   (fun r => r.set (dsd - 2) "Data transformation"))),
             (pySet (rows.map (fun r => r.getD pidx ""))).map
               (mzml2isa.assay_polar_file_name nm)) := by
  unfold mzml2isa.write_assays
  rw [show rows.mapM (fun x => pyGetCell x pidx) = mzml2isa.column_at rows pidx from rfl,
    column_at_ok hbp, ok_bind]
  split_ifs with hcond
  · exact write_single_eq hdsd h2 rows nm hbd
  · rw [write_split_eq hdsd h2 hne _ rows [] [] hbd]
    simp

/-- C2 (amended): the generator locates the "Parameter Value[Scan polarity]"
column in the PRE-pruning header (src/mzml2isa/isa.py line 231) and reads
every pruned row through that stale index (line 297).  With that reading: if
exactly one distinct value is observed, or splitting is disabled, exactly one
assay file is written containing all rows; otherwise one assay file is
written per distinct observed value, named with the uppercase first 3
characters of the value, containing exactly the rows whose cell at the stale
index equals that value (each written row's data-transformation cell — 2
before "Derived Spectral Data File" — is restored to the literal
"Data transformation", src/mzml2isa/isa.py lines 309-313, 326-329). -/
theorem C2_amended {hdr std : List String} {ml : List Record} {sep : Bool} {nm : String}
    {out : mzml2isa.AssayOutput} {pidx dsd : Nat}
    (h : mzml2isa.create_assay hdr std ml sep nm = .ok out)
    (hpidx : pyIndex hdr "Parameter Value[Scan polarity]" = .ok pidx)
    (hdsd : out.headers_pruned.findIdx?
      (fun y => decide (y = "Derived Spectral Data File")) = some dsd)
    (hd2 : 2 ≤ dsd)
    (hbp : ∀ r ∈ out.rows_pruned, pidx < r.length)
    (hbd : ∀ r ∈ out.rows_pruned, dsd - 2 < r.length)
    (hne : dsd - 2 ≠ pidx) :
    ((pySet (out.rows_pruned.map (fun r => r.getD pidx ""))).length = 1 ∨ sep = false →
      out.files = [(mzml2isa.assay_file_name nm,
        out.rows_pruned.map (fun r => r.set (dsd - 2) "Data transformation"))] ∧
      out.written_assays = [mzml2isa.assay_file_name nm]) ∧
    (¬((pySet (out.rows_pruned.map (fun r => r.getD pidx ""))).length = 1 ∨ sep = false) →
      out.files = (pySet (out.rows_pruned.map (fun r => r.getD pidx ""))).map
          (fun p => (mzml2isa.assay_polar_file_name nm p,
            (out.rows_pruned.filter (fun r => decide (r.get? pidx = some p))).map
              (fun r => r.set (dsd - 2) "Data transformation"))) ∧
      out.written_assays = (pySet (out.rows_pruned.map (fun r => r.getD pidx ""))).map
          (mzml2isa.assay_polar_file_name nm)) := by
  obtain ⟨sni, mpi, mei, pidx0, res, g1, g2, g3, g4, g5, g6, g7, hsn, hbr⟩ :=
    create_assay_ok_inv h
  rw [hpidx, Except.ok.injEq] at g4
  subst g4
  rw [write_assays_eq hdsd hd2 hne out.rows_pruned hbp hbd] at g7
  constructor
  · intro hone
    rw [if_pos hone, Except.ok.injEq, Prod.mk.injEq] at g7
    exact ⟨g7.1.symm, g7.2.symm⟩
  · intro hmulti
    rw [if_neg hmulti, Except.ok.injEq, Prod.mk.injEq] at g7
    exact ⟨g7.1.symm, g7.2.symm⟩

/-- Witness for C2's amended theorem: two records with polarities "positive"
and "negative" (and no pruning shift) yield exactly the POS and NEG assay
files, each holding its own row. -/
theorem C2_witness :
    c2OutW.files =
      [("a_study_metabolite_profiling_mass_spectrometry_POS.txt",
        [["", "Mass spectrometry", "a", "b", "positive", "", "", "Data transformation",
          "Metabolite identification", "", ""]]),
       ("a_study_metabolite_profiling_mass_spectrometry_NEG.txt",
        [["", "Mass spectrometry", "a", "b", "negative", "", "", "Data transformation",
          "Metabolite identification", "", ""]])] ∧
    c2OutW.written_assays =
      ["a_study_metabolite_profiling_mass_spectrometry_POS.txt",
       "a_study_metabolite_profiling_mass_spectrometry_NEG.txt"] := by
  have hca : mzml2isa.create_assay exHeaders exStandard c2Records true "study" =
      .ok c2OutW := rfl
  have h := (C2_amended hca
    (show pyIndex exHeaders "Parameter Value[Scan polarity]" = .ok 4 from rfl)
    (show c2OutW.headers_pruned.findIdx?
      (fun y => decide (y = "Derived Spectral Data File")) = some 9 from rfl)
    (by omega)
    (by decide)
    (by decide)
    (by decide)).2 (by decide)
  exact ⟨h.1.trans (by rfl), h.2.trans (by rfl)⟩

/-- The indexed findIdx? loop stays within bounds. -/
theorem findIdx?_start_lt {α : Type} {p : α → Bool} :
    ∀ {l : List α} {s i : Nat}, List.findIdx? p l s = some i → i < s + l.length := by
  intro l
  induction l with
  | nil => intro s i h; exact Option.noConfusion h
  | cons x xs ih =>
    intro s i h
    rw [List.findIdx?] at h
    split_ifs at h with hp
    · cases h
      rw [List.length_cons]
      omega
    · have := ih h
      rw [List.length_cons]
      omega

/-- A found index is within bounds. -/
theorem findIdx?_some_lt {α : Type} {p : α → Bool} {l : List α} {i : Nat}
    (h : l.findIdx? p = some i) : i < l.length := by
  have := findIdx?_start_lt h
  omega

/-- pyIndex returns an in-bounds index. -/
theorem pyIndex_lt {l : List String} {x : String} {i : Nat}
    (h : pyIndex l x = .ok i) : i < l.length := by
  unfold pyIndex at h
  cases hf : l.findIdx? (fun y => decide (y = x)) with
  | none => rw [hf] at h; cases h
  | some j =>
    rw [hf] at h
    rw [Except.ok.injEq] at h
    subst h
    exact findIdx?_some_lt hf

/-- Inversion of a successful pruning run. -/
theorem remove_blank_columns_inv {start stop : Nat} {rows : List (List String)}
    {hdr hp : List String} {rp : List (List String)}
    (h : mzml2isa.remove_blank_columns start stop rows hdr = .ok (hp, rp)) :
    ∃ del, hp = removeIdxs hdr del ∧ rp = rows.map (fun r => removeIdxs r del) := by
  unfold mzml2isa.remove_blank_columns at h
  obtain ⟨del, hdel, h⟩ := except_bind_ok h
  rw [Except.ok.injEq, Prod.mk.injEq] at h
  exact ⟨del, h.1.symm, h.2.symm⟩

/-- Removing the same index set from equal-length lists gives equal lengths. -/
theorem removeIdxsAux_length_congr :
    ∀ (l1 l2 : List String), l1.length = l2.length → ∀ (del : List Nat) (i : Nat),
    (removeIdxsAux del i l1).length = (removeIdxsAux del i l2).length := by
  intro l1
  induction l1 with
  | nil =>
    intro l2 hl del i
    cases l2 with
    | nil => rfl
    | cons y ys => simp at hl
  | cons x xs ih =>
    intro l2 hl del i
    cases l2 with
    | nil => simp at hl
    | cons y ys =>
      simp only [List.length_cons, Nat.succ.injEq] at hl
      rw [removeIdxsAux, removeIdxsAux]
      split_ifs with hc
      · exact ih ys hl del (i + 1)
      · simp only [List.length_cons]
        rw [ih ys hl del (i + 1)]

/-- mapM over pySetCell preserves a uniform row length. -/
theorem mapM_pySetCell_len {i : Int} {v : String} {K : Nat} :
    ∀ {rows rows' : List (List String)},
    rows.mapM (fun row => pySetCell row i v) = .ok rows' →
    (∀ r ∈ rows, r.length = K) → (∀ r ∈ rows', r.length = K) := by
  intro rows
  induction rows with
  | nil =>
    intro rows' h hK
    rw [List.mapM_nil] at h
    cases h
    intro r hr
    cases hr
  | cons r rest ih =>
    intro rows' h hK
    rw [List.mapM_cons] at h
    obtain ⟨r1, hr1, h⟩ := except_bind_ok h
    obtain ⟨rs, hrs, h⟩ := except_bind_ok h
    cases h
    intro x hx
    rcases List.mem_cons.mp hx with hx | hx
    · subst hx
      rw [pySetCell_length hr1]
      exact hK r (by simp)
    · exact ih hrs (fun r hr => hK r (by simp [hr])) x hx

/-- mutate_group preserves a uniform row length in both outputs. -/
theorem mutate_group_len {pidx : Nat} {p : String} {dt : Int} {K : Nat} :
    ∀ {rows rows1 grp : List (List String)},
    mzml2isa.mutate_group rows pidx p dt = .ok (rows1, grp) →
    (∀ r ∈ rows, r.length = K) →
    (∀ r ∈ rows1, r.length = K) ∧ (∀ r ∈ grp, r.length = K) := by
  intro rows
  induction rows with
  | nil =>
    intro rows1 grp h hK
    rw [mzml2isa.mutate_group] at h
    rw [Except.ok.injEq, Prod.mk.injEq] at h
    obtain ⟨h1, h2⟩ := h
    subst h1
    subst h2
    exact ⟨fun r hr => (by cases hr), fun r hr => (by cases hr)⟩
  | cons r rest ih =>
    intro rows1 grp h hK
    rw [mzml2isa.mutate_group] at h
    split_ifs at h with hc
    · obtain ⟨r1, hr1, h⟩ := except_bind_ok h
      obtain ⟨rg, hrg, h⟩ := except_bind_ok h
      rw [Except.ok.injEq, Prod.mk.injEq] at h
      obtain ⟨h1, h2⟩ := h
      subst h1
      subst h2
      obtain ⟨ha, hb⟩ := ih hrg (fun x hx => hK x (by simp [hx]))
      have hr1K : r1.length = K := by
        rw [pySetCell_length hr1]
        exact hK r (by simp)
      constructor
      · intro x hx
        rcases List.mem_cons.mp hx with hx | hx
        · subst hx; exact hr1K
        · exact ha x hx
      · intro x hx
        rcases List.mem_cons.mp hx with hx | hx
        · subst hx; exact hr1K
        · exact hb x hx
    · obtain ⟨rg, hrg, h⟩ := except_bind_ok h
      rw [Except.ok.injEq, Prod.mk.injEq] at h
      obtain ⟨h1, h2⟩ := h
      subst h1
      subst h2
      obtain ⟨ha, hb⟩ := ih hrg (fun x hx => hK x (by simp [hx]))
      constructor
      · intro x hx
        rcases List.mem_cons.mp hx with hx | hx
        · subst hx
          exact hK _ (by simp)
        · exact ha x hx
      · exact hb

/-- The split loop preserves a uniform row length in every written file. -/
theorem write_split_len {hp : List String} {pidx : Nat} {nm : String} {K : Nat} :
    ∀ (ps : List String) {rows : List (List String)}
      {files0 : List (String × List (List String))} {written0 : List String}
      {files : List (String × List (List String))} {written : List String},
    mzml2isa.write_split hp pidx nm ps (files0, written0, rows) = .ok (files, written) →
    (∀ r ∈ rows, r.length = K) →
    (∀ f ∈ files0, ∀ r ∈ f.2, r.length = K) →
    (∀ f ∈ files, ∀ r ∈ f.2, r.length = K) := by
  intro ps
  induction ps with
  | nil =>
    intro rows files0 written0 files written h hK h0
    rw [mzml2isa.write_split] at h
    rw [Except.ok.injEq, Prod.mk.injEq] at h
    obtain ⟨h1, h2⟩ := h
    subst h1
    exact h0
  | cons p rest ih =>
    intro rows files0 written0 files written h hK h0
    rw [mzml2isa.write_split] at h
    obtain ⟨dsd, hdsd, h⟩ := except_bind_ok h
    obtain ⟨rg, hrg, h⟩ := except_bind_ok h
    obtain ⟨hrows1, hgrp⟩ := mutate_group_len
      (show mzml2isa.mutate_group rows pidx p ((dsd : Int) - 2) = .ok (rg.1, rg.2) from by
        rw [hrg]) hK
    refine ih h hrows1 ?_
    intro f hf
    rcases List.mem_append.mp hf with hf | hf
    · exact h0 f hf
    · rw [List.mem_singleton] at hf
      subst hf
      exact hgrp

/-- Every row of every written assay file keeps the uniform row length. -/
theorem write_assays_len {hp : List String} {pidx : Nat} {sep : Bool} {nm : String}
    {rows : List (List String)} {files : List (String × List (List String))}
    {written : List String} {K : Nat}
    (h : mzml2isa.write_assays hp rows pidx sep nm = .ok (files, written))
    (hK : ∀ r ∈ rows, r.length = K) :
    ∀ f ∈ files, ∀ r ∈ f.2, r.length = K := by
  unfold mzml2isa.write_assays at h
  obtain ⟨vals, hvals, h⟩ := except_bind_ok h
  split_ifs at h with hc
  · unfold mzml2isa.write_single at h
    obtain ⟨dsd, hdsd, h⟩ := except_bind_ok h
    obtain ⟨rows1, hrows1, h⟩ := except_bind_ok h
    rw [Except.ok.injEq, Prod.mk.injEq] at h
    obtain ⟨h1, h2⟩ := h
    subst h1
    intro f hf
    rw [List.mem_singleton] at hf
    subst hf
    exact mapM_pySetCell_len hrows1 hK
  · exact write_split_len _ h hK (fun f hf => (by cases hf))

/-- C9: every assay row always has exactly as many cells as the current
header — after row construction (rows vs. the template header), after column
pruning (pruned rows vs. pruned header), and in every written assay file
(ISA_Tab.create_assay and remove_blank_columns, src/mzml2isa/isa.py lines
225-331 and 372-398).  The hypotheses state the template invariants: header
and representative row have the same number of cells and the
"Mass spectrometry" boundary precedes "Metabolite identification". -/
theorem C9_row_header_length_invariant {hdr std : List String} {ml : List Record}
    {sep : Bool} {nm : String} {out : mzml2isa.AssayOutput}
    (hlen : hdr.length = std.length)
    (hms : ∀ a b, pyIndex std "Mass spectrometry" = .ok a →
        pyIndex std "Metabolite identification" = .ok b → a < b)
    (h : mzml2isa.create_assay hdr std ml sep nm = .ok out) :
    (∀ r ∈ out.built_rows, r.length = hdr.length) ∧
    (∀ r ∈ out.rows_pruned, r.length = out.headers_pruned.length) ∧
    (∀ f ∈ out.files, ∀ r ∈ f.2, r.length = out.headers_pruned.length) := by
  obtain ⟨sni, mpi, mei, pidx, res, g1, g2, g3, g4, g5, g6, g7, hsn, hbr⟩ :=
    create_assay_ok_inv h
  have hab : mpi < mei := hms mpi mei g2 g3
  have hmel : mei < std.length := pyIndex_lt g3
  obtain ⟨hrows, hpre, hnmr⟩ := build_rows_len g5
  have hK : ∀ r ∈ res.2, r.length = hdr.length := by
    intro r hr
    rcases hrows r hr with hin | hl
    · cases hin
    · rw [hl]
      simp only [List.length_take, List.length_replicate, List.length_drop]
      omega
  have hp2 : ∀ r ∈ out.rows_pruned, r.length = out.headers_pruned.length := by
    obtain ⟨del, hhp, hrp⟩ := remove_blank_columns_inv g6
    intro r hr
    rw [hrp] at hr
    obtain ⟨r0, hr0, hrr⟩ := List.mem_map.mp hr
    subst hrr
    rw [hhp]
    exact removeIdxsAux_length_congr r0 hdr (hK r0 hr0) del 0
  refine ⟨fun r hr => hK r (by rw [← hbr]; exact hr), hp2, write_assays_len g7 hp2⟩

/-- Witness for C9: on the concrete two-record run, the first built row has
the template header's 11 cells, and both the pruned rows and the rows of the
first written file have exactly as many cells as the pruned header. -/
theorem C9_witness :
    (c2OutW.built_rows.getD 0 []).length = exHeaders.length ∧
    (c2OutW.rows_pruned.getD 0 []).length = c2OutW.headers_pruned.length ∧
    ((c2OutW.files.getD 0 ("", [])).2.getD 0 []).length = c2OutW.headers_pruned.length := by
  have hca : mzml2isa.create_assay exHeaders exStandard c2Records true "study" =
      .ok c2OutW := rfl
  have h := C9_row_header_length_invariant (by rfl)
    (by
      intro a b ha hb
      rw [show pyIndex exStandard "Mass spectrometry" = Except.ok 1 from rfl,
        Except.ok.injEq] at ha
      rw [show pyIndex exStandard "Metabolite identification" = Except.ok 8 from rfl,
        Except.ok.injEq] at hb
      omega)
    hca
  exact ⟨h.1 (c2OutW.built_rows.getD 0 []) (by decide),
    h.2.1 (c2OutW.rows_pruned.getD 0 []) (by decide),
    h.2.2 (c2OutW.files.getD 0 ("", [])) (by decide)
      ((c2OutW.files.getD 0 ("", [])).2.getD 0 []) (by decide)⟩

/-- Any key of an odAssign result is the assigned key or an existing key. -/
theorem odAssign_key_mem {α β : Type} [DecidableEq α] (m : List (α × β)) (k : α) (v : β) :
    ∀ p ∈ odAssign m k v, p.1 = k ∨ ∃ q ∈ m, p.1 = q.1 := by
  intro p hp
  unfold odAssign at hp
  split_ifs at hp with hc
  · obtain ⟨q, hq, hqp⟩ := List.mem_map.mp hp
    by_cases hqk : q.1 = k
    · rw [if_pos hqk] at hqp
      left
      rw [← hqp]
    · rw [if_neg hqk] at hqp
      right
      exact ⟨q, hq, by rw [← hqp]⟩
  · rcases List.mem_append.mp hp with hp | hp
    · right
      exact ⟨p, hp, rfl⟩
    · left
      rw [List.mem_singleton] at hp
      rw [hp]

/-- Every key produced by the ISA renaming is an allow-list key or a wrapped
`Parameter Value[...]` key (invariant form over the fold accumulator). -/
theorem isa_tab_keys_aux :
    ∀ (meta : Record) (acc : Record),
    (∀ p ∈ acc, p.1 ∈ mzml_2_isa.keep ∨ ∃ s, p.1 = "Parameter Value[" ++ s ++ "]") →
    ∀ p ∈ meta.foldl
      (fun acc kv =>
        if mzml_2_isa.keep.contains kv.1 then odAssign acc kv.1 kv.2
        else odAssign acc ("Parameter Value[" ++ kv.1 ++ "]") kv.2) acc,
      p.1 ∈ mzml_2_isa.keep ∨ ∃ s, p.1 = "Parameter Value[" ++ s ++ "]" := by
  intro meta
  induction meta with
  | nil => intro acc hacc p hp; exact hacc p hp
  | cons kv rest ih =>
    intro acc hacc p hp
    rw [List.foldl_cons] at hp
    refine ih _ ?_ p hp
    intro q hq
    split_ifs at hq with hc
    · rcases odAssign_key_mem acc kv.1 kv.2 q hq with hk | ⟨r, hr, hqr⟩
      · left
        rw [hk]
        simpa using hc
      · rw [hqr]
        exact hacc r hr
    · rcases odAssign_key_mem acc ("Parameter Value[" ++ kv.1 ++ "]") kv.2 q hq with hk | ⟨r, hr, hqr⟩
      · right
        exact ⟨kv.1, hk⟩
      · rw [hqr]
        exact hacc r hr

/-- No allow-list key and no wrapped key is "Sample Name". -/
theorem keep_or_wrapped_ne_sample {k : String}
    (h : k ∈ mzml_2_isa.keep ∨ ∃ s, k = "Parameter Value[" ++ s ++ "]") :
    k ≠ "Sample Name" := by
  rcases h with h | ⟨s, hs⟩
  · intro he
    subst he
    revert h
    decide
  · intro he
    have hl : ("Parameter Value[" ++ s ++ "]").length = ("Sample Name" : String).length := by
      rw [← hs, he]
    rw [String.length_append, String.length_append] at hl
    have h1 : ("Parameter Value[" : String).length = 16 := rfl
    have h2 : ("]" : String).length = 1 := rfl
    have h3 : ("Sample Name" : String).length = 11 := rfl
    omega

/-- A field whose key is not "Sample Name" leaves the state untouched in the
sample-name phase. -/
theorem sample_name_step_other {sni : Nat} {st : mzml2isa.GenState} {key : String}
    {value : MetaValue} (hk : key ≠ "Sample Name") :
    mzml2isa.sample_name_step sni st key value = .ok st := by
  unfold mzml2isa.sample_name_step
  rw [if_neg hk]

/-- A field whose key is not "Sample Name" leaves the sample-name list
unchanged. -/
theorem assay_field_step_samples {sni : Nat} {mh : List String}
    {st st' : mzml2isa.GenState} {kv : String × MetaValue} (hk : kv.1 ≠ "Sample Name")
    (h : mzml2isa.assay_field_step sni mh st kv = .ok st') :
    st'.sample_names = st.sample_names := by
  unfold mzml2isa.assay_field_step at h
  obtain ⟨st1, h1, h2⟩ := except_bind_ok h
  rw [sample_name_step_other hk, Except.ok.injEq] at h1
  subst h1
  exact (mass_step_inv h2).2.2

/-- A record with no "Sample Name" key leaves the sample-name list unchanged. -/
theorem record_fold_samples {rec : Record} :
    ∀ {sni : Nat} {mh : List String} {st st' : mzml2isa.GenState},
    (∀ kv ∈ rec, kv.1 ≠ "Sample Name") →
    rec.foldlM (mzml2isa.assay_field_step sni mh) st = .ok st' →
    st'.sample_names = st.sample_names := by
  induction rec with
  | nil =>
    intro sni mh st st' _ h
    rw [List.foldlM_nil] at h
    cases h
    rfl
  | cons kv rest ih =>
    intro sni mh st st' hk h
    rw [List.foldlM_cons] at h
    obtain ⟨st1, h1, h2⟩ := except_bind_ok h
    rw [ih (fun kv hkv => hk kv (by simp [hkv])) h2]
    exact assay_field_step_samples (hk kv (by simp)) h1

/-- With no record carrying a "Sample Name" key, the record fold leaves the
sample-name list unchanged. -/
theorem build_samples {ml : List Record} :
    ∀ {sni : Nat} {mh post : List String} {acc res : mzml2isa.GenState × List (List String)},
    (∀ rec ∈ ml, ∀ kv ∈ rec, kv.1 ≠ "Sample Name") →
    ml.foldlM (mzml2isa.assay_record_step sni mh post) acc = .ok res →
    res.1.sample_names = acc.1.sample_names := by
  induction ml with
  | nil =>
    intro sni mh post acc res _ h
    rw [List.foldlM_nil] at h
    cases h
    rfl
  | cons rec rest ih =>
    intro sni mh post acc res hk h
    rw [List.foldlM_cons] at h
    obtain ⟨st1, h1, h2⟩ := except_bind_ok h
    unfold mzml2isa.assay_record_step at h1
    obtain ⟨st, hst, h1⟩ := except_bind_ok h1
    rw [Except.ok.injEq] at h1
    subst h1
    rw [ih (fun r hr => hk r (by simp [hr])) h2]
    exact record_fold_samples (hk rec (by simp)) hst

/-- C10: the ISA-renamed projection never contains a field keyed exactly
"Sample Name" — every key is one of the six verbatim allow-list keys (which
exclude it) or is wrapped as "Parameter Value[...]" (mzMLmeta.isa_tab_compatible,
src/mzml_2_isa/mzml.py lines 345-354); consequently, for every record list
produced by this extractor, ISA_Tab.create_assay's running sample-name list
stays empty (src/mzml2isa/isa.py lines 240, 253-255) and the study file is
written with its header line and zero sample rows (ISA_Tab.create_study,
lines 184-205). -/
theorem C10_no_sample_name_empty_study :
    (∀ (meta : Record) (p : String × MetaValue), p ∈ mzml_2_isa.isa_tab_compatible meta →
      (p.1 ∈ mzml_2_isa.keep ∨ ∃ s, p.1 = "Parameter Value[" ++ s ++ "]") ∧
      p.1 ≠ "Sample Name")
    ∧ (∀ (hdr std : List String) (ml : List Record) (sep : Bool) (nm : String)
        (out : mzml2isa.AssayOutput),
        (∀ rec ∈ ml, ∃ m, rec = mzml_2_isa.isa_tab_compatible m) →
        mzml2isa.create_assay hdr std ml sep nm = .ok out →
        out.sample_names = [] ∧
        ∀ (hl : String) (render : String → List String),
          mzml2isa.create_study hl render out.sample_names = [pySplitTab hl]) := by
  have hkeys : ∀ (meta : Record) (p : String × MetaValue),
      p ∈ mzml_2_isa.isa_tab_compatible meta →
      p.1 ∈ mzml_2_isa.keep ∨ ∃ s, p.1 = "Parameter Value[" ++ s ++ "]" := by
    intro meta p hp
    exact isa_tab_keys_aux meta [] (fun q hq => (by cases hq)) p hp
  constructor
  · intro meta p hp
    exact ⟨hkeys meta p hp, keep_or_wrapped_ne_sample (hkeys meta p hp)⟩
  · intro hdr std ml sep nm out hml h
    obtain ⟨sni, mpi, mei, pidx, res, g1, g2, g3, g4, g5, g6, g7, hsn, hbr⟩ :=
      create_assay_ok_inv h
    have hnosample : ∀ rec ∈ ml, ∀ kv ∈ rec, kv.1 ≠ "Sample Name" := by
      intro rec hrec kv hkv
      obtain ⟨m, hm⟩ := hml rec hrec
      subst hm
      exact keep_or_wrapped_ne_sample (hkeys m kv hkv)
    have hempty : out.sample_names = [] := by
      rw [hsn, build_samples hnosample g5]
    exact ⟨hempty, fun hl render => by rw [mzml2isa.create_study, hempty, List.map_nil]⟩

/-- Witness for C10: a record holding only a Scan-polarity field is renamed
to "Parameter Value[Scan polarity]", the generator run leaves the
sample-name list empty, and the study file is just its header. -/
theorem C10_witness :
    c10Out.sample_names = [] ∧
    mzml2isa.create_study "Sample Name\tProtocol REF" (fun n => [n]) c10Out.sample_names =
      [["Sample Name", "Protocol REF"]] := by
  have hca : mzml2isa.create_assay exHeaders exStandard
      [mzml_2_isa.isa_tab_compatible c10Meta] true "study" = .ok c10Out := rfl
  have h := (C10_no_sample_name_empty_study.2 exHeaders exStandard
    [mzml_2_isa.isa_tab_compatible c10Meta] true "study" c10Out
    (by
      intro rec hrec
      rw [List.mem_singleton] at hrec
      exact ⟨c10Meta, hrec⟩)
    hca)
  exact ⟨h.1, (h.2 "Sample Name\tProtocol REF" (fun n => [n])).trans (by rfl)⟩
